import Mathlib

/-!
# Verification of the wassette component lifecycle manager

A shallow embedding of the core of `crates/wassette/src/lib.rs` and
`crates/wassette/src/schema.rs`: JSON values (as produced by `serde_json`
with its default `BTreeMap` object representation), the schema
canonicalizer, the tool registry, and the lifecycle operations
(`load_component`, `unload_component`, `get_component_id_for_tool`,
`execute_component_call` resolution, `validate_stamp`, and the phase-1
metadata fast-start of `populate_registry_from_metadata`).

Filesystem and engine effects are represented by explicit outcome
parameters (for instance, each file removal attempted by
`unload_component` is an abstract outcome `removed`/`notFound`/`ioError`),
so every lifecycle operation becomes a pure function from the pre-state
and the outcomes to the post-state and the returned result.
-/

namespace Wassette

/-- `serde_json::Value`.  Objects are `serde_json`'s default `Map`
(`BTreeMap<String, Value>`), represented as a key-sorted association
list; `mapInsert` below maintains that representation.  Numbers are
abstracted to `Int` (none of the embedded functions inspects a number). -/
inductive Json where
  | null : Json
  | bool (b : Bool) : Json
  | num (n : Int) : Json
  | str (s : String) : Json
  | arr (elems : List Json) : Json
  | obj (fields : List (String × Json)) : Json
deriving Repr

/-- `Value::as_str`. -/
def Json.asStr : Json → Option String
  | .str s => some s
  | _ => none

/-- `Value::as_object`, yielding the underlying association list. -/
def Json.asObj : Json → Option (List (String × Json))
  | .obj m => some m
  | _ => none

/-- `Value::as_array`. -/
def Json.asArr : Json → Option (List Json)
  | .arr l => some l
  | _ => none

/-- `Map::get`: first entry with the given key (a `BTreeMap` never holds
duplicate keys, so "first" is exact on every value reachable in Rust). -/
def mapGet (k : String) : List (String × Json) → Option Json
  | [] => none
  | (k', v) :: rest => if k = k' then some v else mapGet k rest

/-- Replace the value of the first entry carrying key `k`. -/
def replaceFirst (k : String) (v : Json) : List (String × Json) → List (String × Json)
  | [] => []
  | (k', v') :: rest =>
    if k = k' then (k, v) :: rest else (k', v') :: replaceFirst k v rest

/-- Insert `(k, v)` in key-sorted position (used when `k` is absent). -/
def sortedInsert (k : String) (v : Json) : List (String × Json) → List (String × Json)
  | [] => [(k, v)]
  | (k', v') :: rest =>
    if k < k' then (k, v) :: (k', v') :: rest else (k', v') :: sortedInsert k v rest

/-- `Map::insert` of `serde_json`'s `BTreeMap`: replace in place when the
key is present, otherwise insert at the key-sorted position.  On
key-sorted duplicate-free lists (the representation of every `BTreeMap`)
this is exactly the `BTreeMap` insert. -/
def mapInsert (k : String) (v : Json) (l : List (String × Json)) : List (String × Json) :=
  if (mapGet k l).isSome then replaceFirst k v l else sortedInsert k v l

/-- `Map::remove`, also returning the removed value
(`obj.remove(key)` in the source). -/
def mapRemoveGet (k : String) : List (String × Json) → Option Json × List (String × Json)
  | [] => (none, [])
  | (k', v) :: rest =>
    if k = k' then (some v, rest)
    else
      let r := mapRemoveGet k rest
      (r.1, (k', v) :: r.2)

/-- `schema.get(key)` on a JSON value. -/
def jget (j : Json) (k : String) : Option Json :=
  (j.asObj).bind (mapGet k)

/-- `map.get("type").and_then(|v| v.as_str())`. -/
def typeOf (m : List (String × Json)) : Option String :=
  (mapGet "type" m).bind Json.asStr

/-- `map.get("items")` followed by `as_array`. -/
def itemsOf (m : List (String × Json)) : Option (List Json) :=
  (mapGet "items" m).bind Json.asArr

/-- `map.get("properties").and_then(|v| v.as_object())`. -/
def propsOf (m : List (String × Json)) : Option (List (String × Json)) :=
  (mapGet "properties" m).bind Json.asObj

/-- The properties map built by `tuple_items_to_object_schema`'s loop:
`props.insert(format!("val{idx}"), canonicalize_result_schema(item))`
into a `BTreeMap` (the items passed here are already canonicalized). -/
def tuplePropsFrom (i : Nat) : List Json → List (String × Json)
  | [] => []
  | v :: rest => mapInsert ("val" ++ toString i) v (tuplePropsFrom (i + 1) rest)

/-- The `required` vector built by the same loop: `val0`, `val1`, ... in
index order. -/
def tupleRequiredFrom (i : Nat) : List Json → List Json
  | [] => []
  | _ :: rest => .str ("val" ++ toString i) :: tupleRequiredFrom (i + 1) rest

/-- `tuple_items_to_object_schema`, factored over already-canonicalized
items: builds `{type:"object", properties:{val0:..}, required:[..]}`. -/
def mkTupleSchema (items : List Json) : Json :=
  .obj (mapInsert "required" (.arr (tupleRequiredFrom 0 items))
       (mapInsert "properties" (.obj (tuplePropsFrom 0 items))
       (mapInsert "type" (.str "object") [])))

mutual

/-- `canonicalize_result_schema` (schema.rs).  The two calls of
`tuple_items_to_object_schema(items)` appear as
`mkTupleSchema (canonJsonList items)`, pulling the per-item
canonicalization of that helper's loop into `canonJsonList`. -/
def canonicalizeResultSchema : Json → Json
  | .obj map =>
    if typeOf map = some "array" then
      match h : itemsOf map with
      | some items => mkTupleSchema (canonJsonList items)
      | none => .obj map
    else if typeOf map = some "object" then
      match h : propsOf map with
      | some props => .obj (mapInsert "properties" (.obj (canonJsonFields props)) map)
      | none => .obj map
    else .obj map
  | .arr items => mkTupleSchema (canonJsonList items)
  | j => j
termination_by j => sizeOf j
decreasing_by
  all_goals solve
  | (simp; try omega)
  | (have key : ∀ (k : String) (v : Json) (l : List (String × Json)), mapGet k l = some v →
          sizeOf v < sizeOf l := by
       intro k v l
       induction l with
       | nil => intro hh; simp [mapGet] at hh
       | cons hd tl ih =>
         intro hh
         obtain ⟨k', v'⟩ := hd
         by_cases hk : k = k'
         · simp [mapGet, hk] at hh
           subst hh
           simp
           omega
         · simp [mapGet, hk] at hh
           have := ih hh
           simp
           omega
     obtain ⟨j, hj, hja⟩ := Option.bind_eq_some.mp h
     have h1 := key _ j map hj
     cases j <;> simp [Json.asArr, Json.asObj] at hja
     subst hja
     simp at h1 ⊢
     omega)

/-- `canonicalize_result_schema` mapped over tuple items. -/
def canonJsonList : List Json → List Json
  | [] => []
  | j :: rest => canonicalizeResultSchema j :: canonJsonList rest
termination_by l => sizeOf l
decreasing_by all_goals (simp; try omega)

/-- `canonicalize_result_schema` mapped over the values of a properties
map (the `new_props` loop of the `type == "object"` branch). -/
def canonJsonFields : List (String × Json) → List (String × Json)
  | [] => []
  | (k, v) :: rest => (k, canonicalizeResultSchema v) :: canonJsonFields rest
termination_by l => sizeOf l
decreasing_by all_goals (simp; try omega)

end

/-- `build_result_wrapper`: the three `BTreeMap` inserts of
`{type:"object", properties:{result: s}, required:["result"]}`. -/
def buildResultWrapper (resultSchema : Json) : Json :=
  .obj (mapInsert "required" (.arr [.str "result"])
       (mapInsert "properties" (.obj (mapInsert "result" resultSchema []))
       (mapInsert "type" (.str "object") [])))

/-- `wrap_schema_in_result`. -/
def wrapSchemaInResult (schema : Json) : Json :=
  buildResultWrapper schema

/-- `extract_result_schema`. -/
def extractResultSchema (schema : Json) : Option Json :=
  ((jget schema "properties").bind Json.asObj).bind (mapGet "result")

/-- `ensure_result_required`. -/
def ensureResultRequired (outer : List (String × Json)) : Json :=
  let required := ((mapGet "required" outer).bind Json.asArr).getD []
  let hasResult := required.any fun v => v.asStr == some "result"
  let required' := if hasResult then required else required ++ [.str "result"]
  .obj (mapInsert "required" (.arr required') outer)

/-- The `while map.contains_key(&format!("val{idx}"))` / `val{idx}` walk
shared by `looks_like_tuple_keys` and the `type == "array"` branch of
`normalize_result_value`.  The walk stops at the first missing index; a
run of length `r` needs `r` distinct keys, so `m.length` steps of fuel
are always enough (the extra lookup the source performs after the last
hit is guaranteed to miss). -/
def collectTupleVals (m : List (String × Json)) : Nat → Nat → List Json
  | 0, _ => []
  | fuel + 1, idx =>
    match mapGet ("val" ++ toString idx) m with
    | some v => v :: collectTupleVals m fuel (idx + 1)
    | none => []

/-- `looks_like_tuple_keys`: the map is non-empty and consists exactly of
the consecutive keys `val0 .. val(n-1)`. -/
def looksLikeTupleKeys (m : List (String × Json)) : Bool :=
  if m.isEmpty then false
  else
    let idx := (collectTupleVals m m.length 0).length
    decide (0 < idx) && decide (m.length = idx)

/-- The `val{idx}`-keyed map built from an array value in the
all-`val`-prefixed branch of `normalize_result_value`
(`map.insert(format!("val{idx}"), item)` into a fresh `BTreeMap`). -/
def tupleValsToFields (i : Nat) : List Json → List (String × Json)
  | [] => []
  | v :: rest => mapInsert ("val" ++ toString i) v (tupleValsToFields (i + 1) rest)

mutual

/-- `normalize_result_value` (schema.rs). -/
def normalizeResultValue (schema : Json) (value : Json) : Json :=
  match (jget schema "type").bind Json.asStr with
  | some "object" =>
    match h : (jget schema "properties").bind Json.asObj with
    | some props =>
      if props.all (fun p => p.1.startsWith "val") then
        match value with
        | .arr items => .obj (tupleValsToFields 0 items)
        | .obj m => .obj m
        | other => .obj (mapInsert "val0" other [])
      else
        match value with
        | .obj m =>
          let d := normalizeDeclared props m
          .obj (d.2.foldl (fun acc p => mapInsert p.1 p.2 acc) d.1)
        | other => other
    | none => value
  | some "array" =>
    match value with
    | .obj m => if looksLikeTupleKeys m then .arr (collectTupleVals m m.length 0) else .obj m
    | other => other
  | _ => value
termination_by sizeOf schema
decreasing_by
  all_goals solve
  | (simp; try omega)
  | (have key : ∀ (k : String) (v : Json) (l : List (String × Json)), mapGet k l = some v →
          sizeOf v < sizeOf l := by
       intro k v l
       induction l with
       | nil => intro hh; simp [mapGet] at hh
       | cons hd tl ih =>
         intro hh
         obtain ⟨k', v'⟩ := hd
         by_cases hk : k = k'
         · simp [mapGet, hk] at hh
           subst hh
           simp
           omega
         · simp [mapGet, hk] at hh
           have := ih hh
           simp
           omega
     obtain ⟨j, hj, hja⟩ := Option.bind_eq_some.mp h
     unfold jget at hj
     obtain ⟨m, hm, hmg⟩ := Option.bind_eq_some.mp hj
     cases schema <;> simp [Json.asObj] at hm
     subst hm
     cases j <;> simp [Json.asObj] at hja
     subst hja
     have h1 := key "properties" _ _ hmg
     simp at h1 ⊢
     omega)

/-- The first loop of `normalize_result_value`'s declared-properties
branch: for each declared `(key, prop_schema)`, move `obj.remove(key)`
through `normalize_result_value` (missing keys become `null`).  Returns
the accumulated `normalized` map together with what is left of `obj`. -/
def normalizeDeclared :
    List (String × Json) → List (String × Json) →
      List (String × Json) × List (String × Json)
  | [], m => ([], m)
  | (key, ps) :: rest, m =>
    match mapRemoveGet key m with
    | (some v, m') =>
      let d := normalizeDeclared rest m'
      (mapInsert key (normalizeResultValue ps v) d.1, d.2)
    | (none, _) =>
      let d := normalizeDeclared rest m
      (mapInsert key .null d.1, d.2)
termination_by props _ => sizeOf props
decreasing_by all_goals (simp; try omega)

end

/-- `ensure_structured_result` (schema.rs). -/
def ensureStructuredResult (schema : Json) (structuredValue : Json) : Json :=
  match extractResultSchema schema with
  | none => structuredValue
  | some resultSchema =>
    match structuredValue with
    | .obj m =>
      match mapRemoveGet "result" m with
      | (some resultValue, m') =>
        .obj (mapInsert "result" (normalizeResultValue resultSchema resultValue) m')
      | (none, _) =>
        .obj (mapInsert "result" (normalizeResultValue resultSchema (.obj m)) [])
    | other => .obj (mapInsert "result" (normalizeResultValue resultSchema other) [])

/-- `canonicalize_output_schema` (schema.rs). -/
def canonicalizeOutputSchema (schema : Json) : Json :=
  match schema with
  | .obj map =>
    if typeOf map = some "object" then
      match extractResultSchema (.obj map) with
      | some resultSchema =>
        ensureResultRequired
          (mapInsert "properties"
            (.obj (mapInsert "result" (canonicalizeResultSchema resultSchema)
              ((propsOf map).getD []))) map)
      | none => wrapSchemaInResult (canonicalizeResultSchema (.obj map))
    else wrapSchemaInResult (canonicalizeResultSchema (.obj map))
  | s => wrapSchemaInResult (canonicalizeResultSchema s)

mutual

/-- A schema containing no tuple-form array subschema at any position
`canonicalize_result_schema` rewrites: no object with `type:"array"` and
array-valued `items`, and no schema that is itself a JSON array.  On such
schemas `canonicalize_result_schema` is the identity. -/
def tupleFree : Json → Bool
  | .obj map =>
    if typeOf map = some "array" then (itemsOf map).isNone
    else if typeOf map = some "object" then
      match h : propsOf map with
      | some props => tupleFreeFields props
      | none => true
    else true
  | .arr _ => false
  | _ => true
termination_by j => sizeOf j
decreasing_by
  all_goals solve
  | (simp; try omega)
  | (have key : ∀ (k : String) (v : Json) (l : List (String × Json)), mapGet k l = some v →
          sizeOf v < sizeOf l := by
       intro k v l
       induction l with
       | nil => intro hh; simp [mapGet] at hh
       | cons hd tl ih =>
         intro hh
         obtain ⟨k', v'⟩ := hd
         by_cases hk : k = k'
         · simp [mapGet, hk] at hh
           subst hh
           simp
           omega
         · simp [mapGet, hk] at hh
           have := ih hh
           simp
           omega
     obtain ⟨j, hj, hja⟩ := Option.bind_eq_some.mp h
     have h1 := key _ j map hj
     cases j <;> simp [Json.asArr, Json.asObj] at hja
     subst hja
     simp at h1 ⊢
     omega)

/-- `tupleFree` on every value of a properties map. -/
def tupleFreeFields : List (String × Json) → Bool
  | [] => true
  | (_, v) :: rest => tupleFree v && tupleFreeFields rest
termination_by l => sizeOf l
decreasing_by all_goals (simp; try omega)

end

/-- The C5 claim's reading of `ensure_structured_result`: when the
schema has a `result` property `R`, return `{result: v'}` where `v'` is
the whole of `v` aligned to `R` — without first unwrapping a pre-existing
`result` key of `v` and without carrying `v`'s sibling keys along.
Stated for refinement comparison against `ensureStructuredResult`. -/
def claimedEnsureStructuredResult (schema : Json) (structuredValue : Json) : Json :=
  match extractResultSchema schema with
  | none => structuredValue
  | some resultSchema =>
    .obj (mapInsert "result" (normalizeResultValue resultSchema structuredValue) [])

/-- The "possibly unwrapped from a pre-existing `result` key" view of a
value (spec §4.2), used to state the amended C5. -/
def unwrapResult (v : Json) : Json :=
  match v with
  | .obj m =>
    match mapGet "result" m with
    | some rv => rv
    | none => .obj m
  | other => other

/-! ## Tool registry and lifecycle manager state (lib.rs)

The registry's two maps are `std::collections::HashMap`s.  A `HashMap`
has no observable entry order, so it is embedded as an association list
queried and updated through `alookup` / `ainsert` / `aremove`, and
registry equalities are stated extensionally (per-key lookups), which is
exactly `HashMap` equality. -/

/-- `HashMap::get`. -/
def alookup {α : Type} (k : String) : List (String × α) → Option α
  | [] => none
  | (k', v) :: rest => if k = k' then some v else alookup k rest

/-- `HashMap::insert`: replace the entry in place if the key is present,
otherwise add it. -/
def ainsert {α : Type} (k : String) (v : α) : List (String × α) → List (String × α)
  | [] => [(k, v)]
  | (k', v') :: rest =>
    if k = k' then (k, v) :: rest else (k', v') :: ainsert k v rest

/-- `HashMap::remove` (dropping the returned value when unused). -/
def aremove {α : Type} (k : String) : List (String × α) → List (String × α)
  | [] => []
  | (k', v) :: rest => if k = k' then rest else (k', v) :: aremove k rest

/-- `component2json::FunctionIdentifier`. -/
structure FunctionIdentifier where
  interfaceName : Option String
  functionName : String
deriving Repr, DecidableEq

/-- `component2json::ToolMetadata`. -/
structure ToolMetadata where
  identifier : FunctionIdentifier
  schema : Json
  normalizedName : String
deriving Repr

/-- `ToolInfo` (lib.rs). -/
structure ToolInfo where
  componentId : String
  identifier : FunctionIdentifier
  schema : Json
deriving Repr

/-- `ComponentRegistry` (lib.rs). -/
structure ComponentRegistry where
  toolMap : List (String × List ToolInfo)
  componentMap : List (String × List String)
deriving Repr

/-- `ComponentRegistry::new` / `Default`. -/
def ComponentRegistry.empty : ComponentRegistry :=
  ⟨[], []⟩

/-- `self.tool_map.entry(name).or_default().push(tool_info)`. -/
def pushToolEntry (name : String) (info : ToolInfo)
    (tm : List (String × List ToolInfo)) : List (String × List ToolInfo) :=
  match alookup name tm with
  | some infos => ainsert name (infos ++ [info]) tm
  | none => ainsert name [info] tm

/-- `ComponentRegistry::register_tools` (the `Result` it returns is
always `Ok`, so the embedding is total). -/
def registerTools (componentId : String) (tools : List ToolMetadata)
    (reg : ComponentRegistry) : ComponentRegistry :=
  { toolMap :=
      tools.foldl
        (fun acc t =>
          pushToolEntry t.normalizedName ⟨componentId, t.identifier, t.schema⟩ acc)
        reg.toolMap
    componentMap := ainsert componentId (tools.map (·.normalizedName)) reg.componentMap }

/-- The per-tool-name body of `unregister_component`'s loop:
`retain` the infos of other components, dropping the key if none are
left (missing keys are skipped). -/
def unregisterToolName (componentId : String) (tm : List (String × List ToolInfo))
    (name : String) : List (String × List ToolInfo) :=
  match alookup name tm with
  | none => tm
  | some infos =>
    let kept := infos.filter (fun i => i.componentId ≠ componentId)
    if kept.isEmpty then aremove name tm else ainsert name kept tm

/-- `ComponentRegistry::unregister_component`. -/
def unregisterComponent (componentId : String) (reg : ComponentRegistry) :
    ComponentRegistry :=
  match alookup componentId reg.componentMap with
  | none => reg
  | some tools =>
    { toolMap := tools.foldl (unregisterToolName componentId) reg.toolMap
      componentMap := aremove componentId reg.componentMap }

/-- `ComponentRegistry::get_tool_info`. -/
def getToolInfo (reg : ComponentRegistry) (toolName : String) : Option (List ToolInfo) :=
  alookup toolName reg.toolMap

/-- `ComponentRegistry::get_function_identifier`:
`tool_map.get(tool_name).and_then(first).map(identifier)`. -/
def getFunctionIdentifier (reg : ComponentRegistry) (toolName : String) :
    Option FunctionIdentifier :=
  ((alookup toolName reg.toolMap).bind List.head?).map (·.identifier)

/-- The two error messages `get_component_id_for_tool` can produce:
`context("Tool not found")` and the
`"Multiple components found for tool '{name}': {ids}"` bail, which lists
every component id registered under the name. -/
inductive ToolLookupError where
  | notFound
  | ambiguous (toolName : String) (componentIds : List String)
deriving Repr, DecidableEq

/-- `LifecycleManager::get_component_id_for_tool`.  The value `none`
marks the (registry-invariant-impossible) state in which the tool map
holds an empty entry list: there the source indexes `tool_infos[0]` and
panics. -/
def getComponentIdForTool (reg : ComponentRegistry) (toolName : String) :
    Option (Except ToolLookupError String) :=
  match getToolInfo reg toolName with
  | none => some (.error .notFound)
  | some toolInfos =>
    if 1 < toolInfos.length then
      some (.error (.ambiguous toolName (toolInfos.map (·.componentId))))
    else
      match toolInfos with
      | [] => none
      | info :: _ => some (.ok info.componentId)

/-- Modelled from the spec: host-state templates (`WasiStateTemplate`,
built by `create_wasi_state_template_from_policy` in `wasistate.rs`,
which is not among the provided sources) are opaque to the lifecycle
claims; only their identity matters.  `default` stands for the
empty-capability template produced by `create_default_policy_template`. -/
inductive PolicyTemplate where
  | default
  | custom (tag : Nat)
deriving Repr, DecidableEq

/-- The in-memory state a `LifecycleManager` guards: the key set of the
component map (`components`), the `ComponentRegistry`, and the policy
registry's `component_policies` map. -/
structure LMState where
  components : List String
  registry : ComponentRegistry
  policies : List (String × PolicyTemplate)
deriving Repr

/-- `get_wasi_state_for_component`'s template selection:
`component_policies.get(id).cloned().unwrap_or_else(create_default_policy_template)`. -/
def getWasiTemplateForComponent (st : LMState) (componentId : String) : PolicyTemplate :=
  (alookup componentId st.policies).getD .default

/-- `execute_component_call`'s errors up to function resolution. -/
inductive ExecError where
  | componentNotFound
  | unknownTool
deriving Repr, DecidableEq

/-- The component lookup and function-identifier resolution of
`execute_component_call` (lib.rs): `get_component(component_id)` must
find the component, after which the guest function is chosen by
`get_function_identifier(function_name)` alone.  (The subsequent WASI
instantiation and guest call are engine effects outside the embedding.) -/
def resolveCallTarget (st : LMState) (componentId functionName : String) :
    Except ExecError FunctionIdentifier :=
  if st.components.contains componentId then
    match getFunctionIdentifier st.registry functionName with
    | some fid => .ok fid
    | none => .error .unknownTool
  else .error .componentNotFound

/-- Well-formedness of a `ComponentRegistry`, as maintained by
`register_tools`/`unregister_component` on the `HashMap`-backed maps: no
duplicate keys, no empty tool-info lists, and every `ToolInfo` is
covered by its component's entry in the reverse index. -/
def RegWF (reg : ComponentRegistry) : Prop :=
  (reg.componentMap.map Prod.fst).Nodup ∧
  (reg.toolMap.map Prod.fst).Nodup ∧
  ∀ n infos, alookup n reg.toolMap = some infos →
    infos ≠ [] ∧ ∀ info ∈ infos, ∃ names,
      alookup info.componentId reg.componentMap = some names ∧ n ∈ names

/-- The `ToolInfo`s `register_tools(componentId, tools)` contributes
under the tool name `n` (in registration order): a characterization
device for the registration fold. -/
def newToolInfosFor (componentId n : String) (tools : List ToolMetadata) : List ToolInfo :=
  (tools.filter (fun t => t.normalizedName == n)).map
    (fun t => ⟨componentId, t.identifier, t.schema⟩)

/-- The effect of `unregister_component`'s per-name loop body on one
tool-map entry: drop the component's infos, and the whole entry when
nothing remains.  A characterization device for the unregistration
fold. -/
def dropComponentInfos (componentId : String) :
    Option (List ToolInfo) → Option (List ToolInfo)
  | none => none
  | some infos =>
    let kept := infos.filter (fun i => i.componentId ≠ componentId)
    if kept.isEmpty then none else some kept

/-! ## load_component and unload_component (lib.rs)

The fetch, compile, artifact copy, and policy-sidecar steps are I/O; each
becomes an explicit outcome parameter, and the operation is the pure
function from pre-state and outcomes to post-state and returned value.
The best-effort metadata save between the copy and the component-map
insert touches no in-memory state and is elided. -/

/-- `LoadResult` (lib.rs). -/
inductive LoadResult where
  | replaced
  | new
deriving Repr, DecidableEq

/-- The error classes `load_component` can return, in source order:
`load_resource` failure, `load_component_optimized` /
`instantiate_pre` failure, and the `copy_to` bail. -/
inductive LoadError where
  | fetchFailed
  | compileFailed
  | copyFailed
deriving Repr, DecidableEq

/-- Outcome of the co-located `<id>.policy.yaml` auto-attach block at the
end of `load_component`: no sidecar, `read_to_string` failure,
`PolicyParser::parse_str` failure, `create_wasi_state_template_from_policy`
failure, or a successfully built template. -/
inductive PolicyAttachOutcome where
  | noSidecar
  | readFails
  | parseFails
  | templateFails
  | attached (template : PolicyTemplate)
deriving Repr, DecidableEq

/-- `PolicyAttachOutcome`s in which the sidecar exists but fails. -/
def PolicyAttachOutcome.isFailure : PolicyAttachOutcome → Bool
  | .readFails => true
  | .parseFails => true
  | .templateFails => true
  | _ => false

/-- `LifecycleManager::load_component`.  `fetched` is the result of
`load_resource` + `id()` (the derived component id), `compileOk` covers
`load_component_optimized` and `instantiate_pre`, `tools` is
`component_exports_to_tools`, `copyOk` is `downloaded_resource.copy_to`,
and `policyOutcome` the sidecar auto-attach. -/
def loadComponent (st : LMState) (fetched : Option String) (compileOk : Bool)
    (tools : List ToolMetadata) (copyOk : Bool)
    (policyOutcome : PolicyAttachOutcome) :
    LMState × Except LoadError (String × LoadResult) :=
  match fetched with
  | none => (st, .error .fetchFailed)
  | some id =>
    if !compileOk then (st, .error .compileFailed)
    else
      let reg1 := registerTools id tools (unregisterComponent id st.registry)
      if !copyOk then
        ({ st with registry := unregisterComponent id reg1 }, .error .copyFailed)
      else
        let res := if st.components.contains id then LoadResult.replaced else .new
        let components' := if st.components.contains id then st.components
                           else st.components ++ [id]
        let policies' :=
          match policyOutcome with
          | .attached template => ainsert id template st.policies
          | _ => st.policies
        ({ components := components', registry := reg1, policies := policies' },
         .ok (id, res))

/-- Result of one `tokio::fs::remove_file` call. -/
inductive RemoveOutcome where
  | removed
  | notFound
  | ioError
deriving Repr, DecidableEq

/-- `LifecycleManager::remove_file_if_exists`: `NotFound` is success,
any other error aborts. -/
def removeFileIfExists : RemoveOutcome → Except Unit Unit
  | .ioError => .error ()
  | _ => .ok ()

/-- The five removals `unload_component` attempts, in source order:
`component_path`, `get_component_policy_path`,
`get_component_metadata_path`, `component_metadata_path`,
`component_precompiled_path`. -/
structure UnloadFs where
  componentFile : RemoveOutcome
  policyFile : RemoveOutcome
  policyMetadataFile : RemoveOutcome
  componentMetadataFile : RemoveOutcome
  precompiledFile : RemoveOutcome
deriving Repr, DecidableEq

/-- The `?`-chained file-removal prefix of `unload_component`. -/
def unloadFilesResult (fs : UnloadFs) : Except Unit Unit := do
  removeFileIfExists fs.componentFile
  removeFileIfExists fs.policyFile
  removeFileIfExists fs.policyMetadataFile
  removeFileIfExists fs.componentMetadataFile
  removeFileIfExists fs.precompiledFile

/-- Some removal failed with an error other than `NotFound`. -/
def UnloadFs.anyIoError (fs : UnloadFs) : Prop :=
  fs.componentFile = .ioError ∨ fs.policyFile = .ioError ∨
    fs.policyMetadataFile = .ioError ∨ fs.componentMetadataFile = .ioError ∨
    fs.precompiledFile = .ioError

instance (fs : UnloadFs) : Decidable fs.anyIoError := by
  unfold UnloadFs.anyIoError
  infer_instance

/-- `unload_component` returns `anyhow::Error` only for removal
failures; the embedding tags them all `io`. -/
inductive UnloadError where
  | io
deriving Repr, DecidableEq

/-- Modelled from the spec: `cleanup_policy_registry` (not among the
provided sources) implements "drop policy registry entry" — it removes
the component's entry from the policy registry map. -/
def cleanupPolicyRegistry (componentId : String)
    (policies : List (String × PolicyTemplate)) : List (String × PolicyTemplate) :=
  aremove componentId policies

/-- `LifecycleManager::unload_component`: remove the five files first
(short-circuiting on the first non-`NotFound` failure), and only on full
success remove the component-map entry, unregister the tools, and drop
the policy-registry entry. -/
def unloadComponent (st : LMState) (id : String) (fs : UnloadFs) :
    LMState × Except UnloadError Unit :=
  match unloadFilesResult fs with
  | .error _ => (st, .error .io)
  | .ok _ =>
    ({ components := st.components.erase id
       registry := unregisterComponent id st.registry
       policies := cleanupPolicyRegistry id st.policies },
     .ok ())

/-! ## Validation stamps and metadata fast-start (lib.rs) -/

/-- `ValidationStamp` (lib.rs). -/
structure ValidationStamp where
  fileSize : Nat
  mtime : Nat
  contentHash : Option String
deriving Repr, DecidableEq

/-- What `tokio::fs::metadata` reports for a file: its length and, when
`modified()` and `duration_since(UNIX_EPOCH)` both succeed, the
modification time in whole seconds. -/
structure FileMeta where
  len : Nat
  modifiedSecs : Option Nat
deriving Repr, DecidableEq

/-- A file as `validate_stamp` observes it: `meta = none` when
`fs::metadata` fails; `readHash` is the SHA-256 hex digest of the
contents when `fs::read` succeeds (the digest itself is abstract). -/
structure FileView where
  meta : Option FileMeta
  readHash : Option String
deriving Repr, DecidableEq

/-- `LifecycleManager::validate_stamp`. -/
def validateStamp (file : FileView) (stamp : ValidationStamp) : Bool :=
  match file.meta with
  | none => false
  | some m =>
    if m.len ≠ stamp.fileSize then false
    else
      match m.modifiedSecs with
      | none => false
      | some mtime =>
        if mtime ≠ stamp.mtime then false
        else
          match stamp.contentHash with
          | none => true
          | some expectedHash =>
            match file.readHash with
            | none => false
            | some actualHash => actualHash == expectedHash

/-- `ComponentMetadata` (lib.rs), the sidecar record. -/
structure ComponentMetadata where
  componentId : String
  toolSchemas : List Json
  functionIdentifiers : List FunctionIdentifier
  toolNames : List String
  validationStamp : ValidationStamp
  createdAt : Nat
deriving Repr

/-- The zip of `populate_registry_from_metadata` turning a sidecar back
into `ToolMetadata`. -/
def toolMetadataOfSidecar (md : ComponentMetadata) : List ToolMetadata :=
  ((md.functionIdentifiers.zip md.toolSchemas).zip md.toolNames).map
    fun p => ⟨p.1.1, p.1.2, p.2⟩

/-- The per-`X.wasm` step of `populate_registry_from_metadata` (phase 1
of startup): if a sidecar was read and parsed and its stamp validates
against the wasm file, register its tools; otherwise leave the registry
alone. -/
def phase1RegisterFromMetadata (reg : ComponentRegistry) (componentId : String)
    (sidecar : Option ComponentMetadata) (wasmFile : FileView) : ComponentRegistry :=
  match sidecar with
  | none => reg
  | some md =>
    if validateStamp wasmFile md.validationStamp then
      registerTools componentId (toolMetadataOfSidecar md) reg
    else reg

/-! ## Association-list lemmas -/

theorem alookup_ainsert_self {α : Type} (k : String) (v : α) (l : List (String × α)) :
    alookup k (ainsert k v l) = some v := by
  induction l with
  | nil => simp [ainsert, alookup]
  | cons hd tl ih =>
    obtain ⟨k', v'⟩ := hd
    by_cases hk : k = k' <;> simp [ainsert, alookup, hk, ih]

theorem alookup_ainsert_ne {α : Type} {n k : String} (hne : n ≠ k) (v : α)
    (l : List (String × α)) : alookup n (ainsert k v l) = alookup n l := by
  induction l with
  | nil => simp [ainsert, alookup, hne]
  | cons hd tl ih =>
    obtain ⟨k', v'⟩ := hd
    by_cases hk : k = k'
    · subst hk
      simp [ainsert, alookup, hne]
    · by_cases hn : n = k' <;> simp [ainsert, alookup, hk, hn, hne, ih]

theorem alookup_aremove_ne {α : Type} {n k : String} (hne : n ≠ k)
    (l : List (String × α)) : alookup n (aremove k l) = alookup n l := by
  induction l with
  | nil => simp [aremove]
  | cons hd tl ih =>
    obtain ⟨k', v'⟩ := hd
    by_cases hk : k = k'
    · subst hk
      simp [aremove, alookup, hne]
    · by_cases hn : n = k' <;> simp [aremove, alookup, hk, hn, ih]

theorem aremove_of_alookup_none {α : Type} {k : String} {l : List (String × α)}
    (h : alookup k l = none) : aremove k l = l := by
  induction l with
  | nil => simp [aremove]
  | cons hd tl ih =>
    obtain ⟨k', v'⟩ := hd
    by_cases hk : k = k'
    · simp [alookup, hk] at h
    · simp [alookup, hk] at h
      simp [aremove, hk, ih h]

theorem aremove_ainsert_of_none {α : Type} {k : String} {l : List (String × α)}
    (h : alookup k l = none) (v : α) : aremove k (ainsert k v l) = l := by
  induction l with
  | nil => simp [ainsert, aremove]
  | cons hd tl ih =>
    obtain ⟨k', v'⟩ := hd
    by_cases hk : k = k'
    · simp [alookup, hk] at h
    · simp [alookup, hk] at h
      simp [ainsert, aremove, hk, ih h]

/-! ## C1: unload aborts before any in-memory mutation on I/O error -/

/-- C1: for every component id, if any file removal during
`unload_component(id)` fails with an error other than `NotFound`, the
operation returns an error before any in-memory mutation: the component
map still contains `id`, the tool registry still holds exactly the tools
it held (so `id`'s tools in particular), the policy registry entry for
`id` is unchanged, and a subsequent `execute_component_call(id, ...)`
resolves exactly as before the failed unload. -/
theorem claim_C1 (st : LMState) (id : String) (fs : UnloadFs)
    (hio : fs.anyIoError) :
    (∃ e, (unloadComponent st id fs).2 = .error e) ∧
    (id ∈ st.components → id ∈ (unloadComponent st id fs).1.components) ∧
    (∀ n, alookup n (unloadComponent st id fs).1.registry.toolMap =
      alookup n st.registry.toolMap) ∧
    (alookup id (unloadComponent st id fs).1.policies = alookup id st.policies) ∧
    (∀ toolName, resolveCallTarget (unloadComponent st id fs).1 id toolName =
      resolveCallTarget st id toolName) := by
  have hfiles : unloadFilesResult fs = .error () := by
    obtain ⟨c1, c2, c3, c4, c5⟩ := fs
    simp only [UnloadFs.anyIoError] at hio
    revert hio
    cases c1 <;> cases c2 <;> cases c3 <;> cases c4 <;> cases c5 <;> intro hio <;>
      first
      | rfl
      | simp at hio
  refine ⟨⟨.io, ?_⟩, ?_, ?_, ?_, ?_⟩ <;> simp [unloadComponent, hfiles]

/-- Witness for C1 at a concrete state and a concrete failing removal. -/
theorem claim_C1_witness :
    UnloadFs.anyIoError ⟨.ioError, .notFound, .notFound, .notFound, .notFound⟩ ∧
    (∃ e, (unloadComponent ⟨["c"], ComponentRegistry.empty, []⟩ "c"
      ⟨.ioError, .notFound, .notFound, .notFound, .notFound⟩).2 = .error e) :=
  ⟨by decide,
   (claim_C1 ⟨["c"], ComponentRegistry.empty, []⟩ "c"
     ⟨.ioError, .notFound, .notFound, .notFound, .notFound⟩ (by decide)).1⟩

/-! ## C9: unload of an id with nothing on disk does not fail -/

/-- C9 counterexample: for an id that is not loaded and has no files on
disk (every removal reports `NotFound`), `unload_component` returns
`Ok(())` — it does not fail with a NotFound error as the claim states. -/
theorem claim_C9_counterexample :
    (unloadComponent ⟨[], ComponentRegistry.empty, []⟩ "ghost"
      ⟨.notFound, .notFound, .notFound, .notFound, .notFound⟩).2 = .ok () := by
  rfl

/-- C9 (amended): for every id that is not currently loaded (not a key
of the component map, no registry or policy entry) and with no files on
disk, `unload_component(id)` succeeds as a no-op: it returns `Ok` and
leaves the state unchanged; it never returns a NotFound error. -/
theorem claim_C9 (st : LMState) (id : String)
    (hc : id ∉ st.components)
    (hr : alookup id st.registry.componentMap = none)
    (hp : alookup id st.policies = none) :
    (unloadComponent st id
      ⟨.notFound, .notFound, .notFound, .notFound, .notFound⟩).2 = .ok () ∧
    (unloadComponent st id
      ⟨.notFound, .notFound, .notFound, .notFound, .notFound⟩).1 = st := by
  have h1 : st.components.erase id = st.components := List.erase_of_not_mem hc
  have h2 : unregisterComponent id st.registry = st.registry := by
    simp [unregisterComponent, hr]
  have h3 : cleanupPolicyRegistry id st.policies = st.policies := by
    simp [cleanupPolicyRegistry, aremove_of_alookup_none hp]
  have hok : unloadFilesResult ⟨.notFound, .notFound, .notFound, .notFound, .notFound⟩ =
      .ok () := rfl
  refine ⟨rfl, ?_⟩
  simp [unloadComponent, hok, h1, h2, h3]

/-- Witness for C9 (amended) at a concrete empty state. -/
theorem claim_C9_witness :
    "ghost" ∉ ([] : List String) ∧
    (unloadComponent ⟨[], ComponentRegistry.empty, []⟩ "ghost"
      ⟨.notFound, .notFound, .notFound, .notFound, .notFound⟩).1 =
      (⟨[], ComponentRegistry.empty, []⟩ : LMState) :=
  ⟨by simp,
   (claim_C9 ⟨[], ComponentRegistry.empty, []⟩ "ghost" (by simp) rfl rfl).2⟩

/-! ## C7: validate_stamp and metadata freshness -/

/-- C7: `validate_stamp(path, stamp)` returns true iff the file's
current size and modification time (in seconds) equal the stamp's and,
when the stamp carries a content hash, the file's SHA-256 hash equals
it; and at startup `populate_registry_from_metadata` ignores a sidecar
whose stamp does not validate (its tools are not registered). -/
theorem claim_C7 :
    (∀ (file : FileView) (stamp : ValidationStamp),
      validateStamp file stamp = true ↔
        ∃ m, file.meta = some m ∧ m.len = stamp.fileSize ∧
          m.modifiedSecs = some stamp.mtime ∧
          (stamp.contentHash = none ∨
            ∃ hash, stamp.contentHash = some hash ∧ file.readHash = some hash)) ∧
    (∀ (reg : ComponentRegistry) (componentId : String) (md : ComponentMetadata)
        (wasmFile : FileView),
      validateStamp wasmFile md.validationStamp = false →
      phase1RegisterFromMetadata reg componentId (some md) wasmFile = reg) := by
  constructor
  · intro file stamp
    obtain ⟨meta, readHash⟩ := file
    cases meta with
    | none => simp [validateStamp]
    | some m =>
      obtain ⟨len, modifiedSecs⟩ := m
      by_cases hlen : len = stamp.fileSize
      · cases modifiedSecs with
        | none => simp [validateStamp, hlen]
        | some t =>
          by_cases ht : t = stamp.mtime
          · cases hhash : stamp.contentHash with
            | none => simp [validateStamp, hlen, ht, hhash]
            | some expected =>
              cases readHash with
              | none => simp [validateStamp, hlen, ht, hhash]
              | some actual =>
                by_cases hact : actual = expected <;>
                  simp [validateStamp, hlen, ht, hhash, hact]
          · simp [validateStamp, hlen, ht]
      · simp [validateStamp, hlen]
  · intro reg componentId md wasmFile h
    simp [phase1RegisterFromMetadata, h]

/-- Witness for C7: a stamp whose size disagrees with the file does not
validate, and the sidecar carrying it registers nothing. -/
theorem claim_C7_witness :
    validateStamp ⟨some ⟨5, some 10⟩, none⟩ ⟨6, 10, none⟩ = false ∧
    phase1RegisterFromMetadata .empty "c"
      (some ⟨"c", [], [], [], ⟨6, 10, none⟩, 0⟩) ⟨some ⟨5, some 10⟩, none⟩ = .empty :=
  ⟨rfl, claim_C7.2 .empty "c" ⟨"c", [], [], [], ⟨6, 10, none⟩, 0⟩
    ⟨some ⟨5, some 10⟩, none⟩ rfl⟩

/-! ## C10: execute resolves the guest function by tool name alone -/

/-- C10: `execute_component_call(component_id, tool_name, params)`
resolves the guest function by tool name alone — for loaded components
the resolution is independent of the `component_id` argument, and when
two loaded components both register `tool_name`, a call addressed to
either is driven by the first-registered entry's function identifier. -/
theorem claim_C10 :
    (∀ (st : LMState) (cid cid' toolName : String),
      cid ∈ st.components → cid' ∈ st.components →
      resolveCallTarget st cid toolName = resolveCallTarget st cid' toolName) ∧
    (∀ (c1 c2 t : String) (fid1 fid2 : FunctionIdentifier) (s1 s2 : Json)
        (pols : List (String × PolicyTemplate)),
      resolveCallTarget
        ⟨[c1, c2],
         registerTools c2 [⟨fid2, s2, t⟩] (registerTools c1 [⟨fid1, s1, t⟩] .empty),
         pols⟩ c1 t = .ok fid1 ∧
      resolveCallTarget
        ⟨[c1, c2],
         registerTools c2 [⟨fid2, s2, t⟩] (registerTools c1 [⟨fid1, s1, t⟩] .empty),
         pols⟩ c2 t = .ok fid1) := by
  constructor
  · intro st cid cid' toolName hc hc'
    simp [resolveCallTarget, hc, hc']
  · intro c1 c2 t fid1 fid2 s1 s2 pols
    have hreg : getFunctionIdentifier
        (registerTools c2 [⟨fid2, s2, t⟩] (registerTools c1 [⟨fid1, s1, t⟩] .empty)) t =
        some fid1 := by
      simp [registerTools, ComponentRegistry.empty, pushToolEntry, alookup, ainsert,
        getFunctionIdentifier]
    constructor
    · simp [resolveCallTarget, hreg]
    · simp [resolveCallTarget, hreg]

/-- Witness for C10's independence conjunct at a concrete two-component
state. -/
theorem claim_C10_witness :
    "a" ∈ ["a", "b"] ∧ "b" ∈ ["a", "b"] ∧
    resolveCallTarget
      ⟨["a", "b"],
       registerTools "b" [⟨⟨none, "f"⟩, .null, "search"⟩]
         (registerTools "a" [⟨⟨none, "g"⟩, .null, "search"⟩] .empty), []⟩ "a" "search" =
    resolveCallTarget
      ⟨["a", "b"],
       registerTools "b" [⟨⟨none, "f"⟩, .null, "search"⟩]
         (registerTools "a" [⟨⟨none, "g"⟩, .null, "search"⟩] .empty), []⟩ "b" "search" :=
  ⟨by simp, by simp,
   claim_C10.1
     ⟨["a", "b"],
      registerTools "b" [⟨⟨none, "f"⟩, .null, "search"⟩]
        (registerTools "a" [⟨⟨none, "g"⟩, .null, "search"⟩] .empty), []⟩
     "a" "b" "search" (by simp) (by simp)⟩

/-! ## C3: tool-name lookup trichotomy -/

/-- C3: `get_component_id_for_tool` returns the Unknown-tool error when
the registry holds no entry for the name, an Ambiguous error naming
every component id holding the name when it holds more than one entry,
and the single entry's component id otherwise. -/
theorem claim_C3 (reg : ComponentRegistry) (toolName : String) :
    (getToolInfo reg toolName = none →
      getComponentIdForTool reg toolName = some (.error .notFound)) ∧
    (∀ infos, getToolInfo reg toolName = some infos → 1 < infos.length →
      getComponentIdForTool reg toolName =
        some (.error (.ambiguous toolName (infos.map (·.componentId))))) ∧
    (∀ info, getToolInfo reg toolName = some [info] →
      getComponentIdForTool reg toolName = some (.ok info.componentId)) := by
  refine ⟨fun h => by simp [getComponentIdForTool, h], fun infos h hlen => ?_,
    fun info h => by simp [getComponentIdForTool, h]⟩
  simp [getComponentIdForTool, h, hlen]

/-- Witness for C3: two components exporting `search` make the lookup
ambiguous, and the error names both component ids. -/
theorem claim_C3_witness :
    getComponentIdForTool
      (registerTools "c2" [⟨⟨none, "search"⟩, .null, "search"⟩]
        (registerTools "c1" [⟨⟨none, "search"⟩, .null, "search"⟩] .empty)) "search" =
      some (.error (.ambiguous "search" ["c1", "c2"])) := by
  have h := (claim_C3
    (registerTools "c2" [⟨⟨none, "search"⟩, .null, "search"⟩]
      (registerTools "c1" [⟨⟨none, "search"⟩, .null, "search"⟩] .empty)) "search").2.1
    [⟨"c1", ⟨none, "search"⟩, .null⟩, ⟨"c2", ⟨none, "search"⟩, .null⟩]
    (by simp [registerTools, ComponentRegistry.empty, pushToolEntry, alookup, ainsert,
      getToolInfo])
    (by simp)
  simpa using h

/-! ## C8: policy-sidecar failures never fail the load -/

/-- C8 counterexample: reloading component `c` while its policy registry
still holds a previously attached template: the load with a sidecar that
fails to parse succeeds and the component stays loaded, but it does not
run under the default (empty-capability) policy — the stale template is
kept.  This refutes the claim as stated. -/
theorem claim_C8_counterexample :
    (loadComponent ⟨["c"], .empty, [("c", .custom 0)]⟩ (some "c") true [] true
      .parseFails).2 = .ok ("c", .replaced) ∧
    getWasiTemplateForComponent
      (loadComponent ⟨["c"], .empty, [("c", .custom 0)]⟩ (some "c") true [] true
        .parseFails).1 "c" ≠ .default := by
  constructor
  · rfl
  · intro h
    simpa [loadComponent, getWasiTemplateForComponent, alookup,
      registerTools, unregisterComponent, ComponentRegistry.empty] using h

/-- C8 (amended): for every `load_component` whose compile, registration
and artifact commit succeed, a policy sidecar that fails to be read, to
parse, or whose host-state template fails to build never makes the load
fail: the load still returns `Ok`, the component is loaded, and the
policy registry is left unchanged — so absent a pre-existing entry for
the id, the component runs under the default (empty-capability)
policy. -/
theorem claim_C8 (st : LMState) (id : String) (tools : List ToolMetadata)
    (pol : PolicyAttachOutcome) (hfail : pol.isFailure = true) :
    (loadComponent st (some id) true tools true pol).2 =
      .ok (id, if st.components.contains id then .replaced else .new) ∧
    id ∈ (loadComponent st (some id) true tools true pol).1.components ∧
    (loadComponent st (some id) true tools true pol).1.policies = st.policies ∧
    (alookup id st.policies = none →
      getWasiTemplateForComponent (loadComponent st (some id) true tools true pol).1 id =
        .default) := by
  have hmem : ∀ pol', (loadComponent st (some id) true tools true pol').1.components =
      (if st.components.contains id then st.components else st.components ++ [id]) := by
    intro pol'
    cases pol' <;> rfl
  cases pol <;> simp [PolicyAttachOutcome.isFailure] at hfail <;>
    refine ⟨rfl, ?_, rfl, fun hnone => ?_⟩ <;>
    first
    | (rw [hmem]
       by_cases hc : id ∈ st.components <;> simp [hc])
    | (simp [loadComponent, getWasiTemplateForComponent, hnone])

/-- Witness for C8 (amended): a fresh load with an unparsable sidecar on
an empty state. -/
theorem claim_C8_witness :
    PolicyAttachOutcome.isFailure .parseFails = true ∧
    (loadComponent ⟨[], .empty, []⟩ (some "c") true [] true .parseFails).2 =
      .ok ("c", .new) ∧
    getWasiTemplateForComponent
      (loadComponent ⟨[], .empty, []⟩ (some "c") true [] true .parseFails).1 "c" =
      .default := by
  have h := claim_C8 ⟨[], .empty, []⟩ "c" [] .parseFails rfl
  exact ⟨rfl, by simpa using h.1, h.2.2.2 rfl⟩

/-! ## BTreeMap (`mapGet`/`mapInsert`) lemmas -/

theorem mapGet_replaceFirst_self {k : String} {l : List (String × Json)} (v : Json)
    (h : (mapGet k l).isSome) : mapGet k (replaceFirst k v l) = some v := by
  induction l with
  | nil => simp [mapGet] at h
  | cons hd tl ih =>
    obtain ⟨k', v'⟩ := hd
    by_cases hk : k = k'
    · simp [replaceFirst, mapGet, hk]
    · simp [mapGet, hk] at h
      simp [replaceFirst, mapGet, hk, ih h]

theorem mapGet_replaceFirst_ne {n k : String} (hne : n ≠ k) (v : Json)
    (l : List (String × Json)) : mapGet n (replaceFirst k v l) = mapGet n l := by
  induction l with
  | nil => simp [replaceFirst]
  | cons hd tl ih =>
    obtain ⟨k', v'⟩ := hd
    by_cases hk : k = k'
    · subst hk
      simp [replaceFirst, mapGet, hne]
    · by_cases hn : n = k' <;> simp [replaceFirst, mapGet, hk, hn, ih]

theorem mapGet_sortedInsert_self {k : String} {l : List (String × Json)}
    (h : mapGet k l = none) (v : Json) : mapGet k (sortedInsert k v l) = some v := by
  induction l with
  | nil => simp [sortedInsert, mapGet]
  | cons hd tl ih =>
    obtain ⟨k', v'⟩ := hd
    by_cases hk : k = k'
    · simp [mapGet, hk] at h
    · simp [mapGet, hk] at h
      by_cases hlt : k < k' <;> simp [sortedInsert, mapGet, hlt, hk, ih h]

theorem mapGet_sortedInsert_ne {n k : String} (hne : n ≠ k) (v : Json)
    (l : List (String × Json)) : mapGet n (sortedInsert k v l) = mapGet n l := by
  induction l with
  | nil => simp [sortedInsert, mapGet, hne]
  | cons hd tl ih =>
    obtain ⟨k', v'⟩ := hd
    by_cases hlt : k < k'
    · simp [sortedInsert, mapGet, hlt, hne]
    · by_cases hn : n = k' <;> simp [sortedInsert, mapGet, hlt, hn, ih]

theorem mapGet_mapInsert_self (k : String) (v : Json) (l : List (String × Json)) :
    mapGet k (mapInsert k v l) = some v := by
  unfold mapInsert
  by_cases h : (mapGet k l).isSome
  · simp [h, mapGet_replaceFirst_self v h]
  · simp at h
    simp [h, mapGet_sortedInsert_self h v]

theorem mapGet_mapInsert_ne {n k : String} (hne : n ≠ k) (v : Json)
    (l : List (String × Json)) : mapGet n (mapInsert k v l) = mapGet n l := by
  unfold mapInsert
  by_cases h : (mapGet k l).isSome
  · simp [h, mapGet_replaceFirst_ne hne]
  · simp [h, mapGet_sortedInsert_ne hne]

theorem mapInsert_of_mapGet_eq {k : String} {v : Json} {l : List (String × Json)}
    (h : mapGet k l = some v) : mapInsert k v l = l := by
  have hrepl : ∀ l', mapGet k l' = some v → replaceFirst k v l' = l' := by
    intro l'
    induction l' with
    | nil => simp [mapGet]
    | cons hd tl ih =>
      obtain ⟨k', v'⟩ := hd
      by_cases hk : k = k'
      · subst hk
        intro hh
        simp [mapGet] at hh
        simp [replaceFirst, hh]
      · intro hh
        simp [mapGet, hk] at hh
        simp [replaceFirst, hk, ih hh]
  unfold mapInsert
  simp [h, hrepl l h]

/-! ## Size and unfolding lemmas for the canonicalizer -/

theorem sizeOf_of_mapGet {k : String} {v : Json} :
    ∀ {l : List (String × Json)}, mapGet k l = some v → sizeOf v < sizeOf l := by
  intro l
  induction l with
  | nil => intro h; simp [mapGet] at h
  | cons hd tl ih =>
    intro h
    obtain ⟨k', v'⟩ := hd
    by_cases hk : k = k'
    · simp [mapGet, hk] at h
      subst h
      simp
      omega
    · simp [mapGet, hk] at h
      have := ih h
      simp
      omega

theorem sizeOf_of_itemsOf {m : List (String × Json)} {items : List Json}
    (h : itemsOf m = some items) : sizeOf items < sizeOf (Json.obj m) := by
  obtain ⟨j, hj, hja⟩ := Option.bind_eq_some.mp h
  have h1 := sizeOf_of_mapGet hj
  cases j <;> simp [Json.asArr] at hja
  subst hja
  simp at h1 ⊢
  omega

theorem sizeOf_of_propsOf {m : List (String × Json)} {props : List (String × Json)}
    (h : propsOf m = some props) : sizeOf props < sizeOf (Json.obj m) := by
  obtain ⟨j, hj, hja⟩ := Option.bind_eq_some.mp h
  have h1 := sizeOf_of_mapGet hj
  cases j <;> simp [Json.asObj] at hja
  subst hja
  simp at h1 ⊢
  omega

theorem sizeOf_of_itemsOf_mem {m : List (String × Json)} {items : List Json} {x : Json}
    (h : itemsOf m = some items) (hx : x ∈ items) : sizeOf x < sizeOf (Json.obj m) :=
  lt_trans (List.sizeOf_lt_of_mem hx) (sizeOf_of_itemsOf h)

theorem sizeOf_of_propsOf_mem {m : List (String × Json)} {props : List (String × Json)}
    {p : String × Json} (h : propsOf m = some props) (hp : p ∈ props) :
    sizeOf p.2 < sizeOf (Json.obj m) := by
  have h1 : sizeOf p < sizeOf props := List.sizeOf_lt_of_mem hp
  have h2 : sizeOf p.2 < sizeOf p := by
    obtain ⟨a, b⟩ := p
    simp
  exact lt_trans (lt_trans h2 h1) (sizeOf_of_propsOf h)

theorem sizeOf_of_arr_mem {items : List Json} {x : Json} (hx : x ∈ items) :
    sizeOf x < sizeOf (Json.arr items) := by
  have := List.sizeOf_lt_of_mem hx
  simp
  omega

/-- Strong induction on the size of a JSON value. -/
theorem json_size_induction (P : Json → Prop)
    (step : ∀ j, (∀ j', sizeOf j' < sizeOf j → P j') → P j) : ∀ j, P j := by
  intro j
  generalize hn : sizeOf j = n
  induction n using Nat.strong_induction_on generalizing j with
  | _ n ih =>
    subst hn
    exact step j (fun j' hj' => ih _ hj' j' rfl)

theorem cR_obj_array_some {map : List (String × Json)} {items : List Json}
    (hA : typeOf map = some "array") (hi : itemsOf map = some items) :
    canonicalizeResultSchema (.obj map) = mkTupleSchema (canonJsonList items) := by
  simp only [canonicalizeResultSchema, hA, if_true, eq_self_iff_true]
  split <;> simp_all

theorem cR_obj_array_none {map : List (String × Json)}
    (hA : typeOf map = some "array") (hi : itemsOf map = none) :
    canonicalizeResultSchema (.obj map) = .obj map := by
  simp only [canonicalizeResultSchema, hA, if_true, eq_self_iff_true]
  split <;> simp_all

theorem cR_obj_object_some {map props : List (String × Json)}
    (hA : ¬ typeOf map = some "array") (hO : typeOf map = some "object")
    (hp : propsOf map = some props) :
    canonicalizeResultSchema (.obj map) =
      .obj (mapInsert "properties" (.obj (canonJsonFields props)) map) := by
  simp only [canonicalizeResultSchema]
  rw [if_neg hA, if_pos hO]
  split <;> simp_all

theorem cR_obj_object_none {map : List (String × Json)}
    (hA : ¬ typeOf map = some "array") (hO : typeOf map = some "object")
    (hp : propsOf map = none) :
    canonicalizeResultSchema (.obj map) = .obj map := by
  simp only [canonicalizeResultSchema]
  rw [if_neg hA, if_pos hO]
  split <;> simp_all

theorem cR_obj_other {map : List (String × Json)}
    (hA : ¬ typeOf map = some "array") (hO : ¬ typeOf map = some "object") :
    canonicalizeResultSchema (.obj map) = .obj map := by
  simp only [canonicalizeResultSchema]
  rw [if_neg hA, if_neg hO]

theorem cR_arr (items : List Json) :
    canonicalizeResultSchema (.arr items) = mkTupleSchema (canonJsonList items) := by
  simp [canonicalizeResultSchema]

theorem cR_null : canonicalizeResultSchema .null = .null := by
  simp [canonicalizeResultSchema]

theorem cR_bool (b : Bool) : canonicalizeResultSchema (.bool b) = .bool b := by
  simp [canonicalizeResultSchema]

theorem cR_num (n : Int) : canonicalizeResultSchema (.num n) = .num n := by
  simp [canonicalizeResultSchema]

theorem cR_str (s : String) : canonicalizeResultSchema (.str s) = .str s := by
  simp [canonicalizeResultSchema]

theorem canonJsonList_eq_map (l : List Json) :
    canonJsonList l = l.map canonicalizeResultSchema := by
  induction l with
  | nil => simp [canonJsonList]
  | cons x xs ih => simp [canonJsonList, ih]

theorem canonJsonFields_eq_map (l : List (String × Json)) :
    canonJsonFields l = l.map (fun p => (p.1, canonicalizeResultSchema p.2)) := by
  induction l with
  | nil => simp [canonJsonFields]
  | cons x xs ih =>
    obtain ⟨k, v⟩ := x
    simp [canonJsonFields, ih]

/-! ## Lookup lemmas for the built wrapper objects -/

theorem buildResultWrapper_get_type (R : Json) :
    mapGet "type" (mapInsert "required" (.arr [.str "result"])
      (mapInsert "properties" (.obj (mapInsert "result" R []))
      (mapInsert "type" (.str "object") []))) = some (.str "object") := by
  rw [mapGet_mapInsert_ne (by decide), mapGet_mapInsert_ne (by decide),
    mapGet_mapInsert_self]

theorem buildResultWrapper_get_props (R : Json) :
    mapGet "properties" (mapInsert "required" (.arr [.str "result"])
      (mapInsert "properties" (.obj (mapInsert "result" R []))
      (mapInsert "type" (.str "object") []))) =
      some (.obj (mapInsert "result" R [])) := by
  rw [mapGet_mapInsert_ne (by decide), mapGet_mapInsert_self]

theorem buildResultWrapper_get_required (R : Json) :
    mapGet "required" (mapInsert "required" (.arr [.str "result"])
      (mapInsert "properties" (.obj (mapInsert "result" R []))
      (mapInsert "type" (.str "object") []))) = some (.arr [.str "result"]) := by
  rw [mapGet_mapInsert_self]

theorem mkTupleSchema_get_type (items : List Json) :
    mapGet "type" (mapInsert "required" (.arr (tupleRequiredFrom 0 items))
      (mapInsert "properties" (.obj (tuplePropsFrom 0 items))
      (mapInsert "type" (.str "object") []))) = some (.str "object") := by
  rw [mapGet_mapInsert_ne (by decide), mapGet_mapInsert_ne (by decide),
    mapGet_mapInsert_self]

theorem mkTupleSchema_get_props (items : List Json) :
    mapGet "properties" (mapInsert "required" (.arr (tupleRequiredFrom 0 items))
      (mapInsert "properties" (.obj (tuplePropsFrom 0 items))
      (mapInsert "type" (.str "object") []))) =
      some (.obj (tuplePropsFrom 0 items)) := by
  rw [mapGet_mapInsert_ne (by decide), mapGet_mapInsert_self]

theorem extractResultSchema_buildResultWrapper (R : Json) :
    extractResultSchema (buildResultWrapper R) = some R := by
  unfold extractResultSchema buildResultWrapper jget
  simp [Json.asObj, buildResultWrapper_get_props, mapGet_mapInsert_self]

/-! ## tupleFree: canonicalize_result_schema is the identity -/

theorem tupleFree_obj_array {map : List (String × Json)}
    (hA : typeOf map = some "array") :
    tupleFree (.obj map) = (itemsOf map).isNone := by
  simp only [tupleFree, hA, if_true, eq_self_iff_true]

theorem tupleFree_obj_object_some {map props : List (String × Json)}
    (hA : ¬ typeOf map = some "array") (hO : typeOf map = some "object")
    (hp : propsOf map = some props) :
    tupleFree (.obj map) = tupleFreeFields props := by
  simp only [tupleFree]
  rw [if_neg hA, if_pos hO]
  split <;> simp_all

theorem tupleFreeFields_eq_all (l : List (String × Json)) :
    tupleFreeFields l = l.all (fun p => tupleFree p.2) := by
  induction l with
  | nil => simp [tupleFreeFields]
  | cons x xs ih =>
    obtain ⟨k, v⟩ := x
    simp [tupleFreeFields, ih]

theorem map_cR_id_of_forall {l : List (String × Json)}
    (h : ∀ p ∈ l, canonicalizeResultSchema p.2 = p.2) :
    l.map (fun p => (p.1, canonicalizeResultSchema p.2)) = l := by
  induction l with
  | nil => simp
  | cons x xs ih =>
    obtain ⟨k, v⟩ := x
    have h1 := h (k, v) (by simp)
    simp at h1
    simp [h1]
    exact ih (fun p hp => h p (by simp [hp]))

theorem propsOf_mapGet {map props : List (String × Json)}
    (hp : propsOf map = some props) :
    mapGet "properties" map = some (.obj props) := by
  obtain ⟨j, hj, hja⟩ := Option.bind_eq_some.mp hp
  cases j <;> simp [Json.asObj] at hja
  subst hja
  exact hj

/-- On schemas with no tuple-form array subschema,
`canonicalize_result_schema` is the identity. -/
theorem cR_of_tupleFree : ∀ j, tupleFree j = true → canonicalizeResultSchema j = j := by
  refine json_size_induction (fun j => tupleFree j = true → canonicalizeResultSchema j = j)
    (fun j ih htf => ?_)
  cases j with
  | null => exact cR_null
  | bool b => exact cR_bool b
  | num n => exact cR_num n
  | str s => exact cR_str s
  | arr items => simp [tupleFree] at htf
  | obj map =>
    by_cases hA : typeOf map = some "array"
    · rw [tupleFree_obj_array hA] at htf
      have hi : itemsOf map = none := by
        cases hcase : itemsOf map
        · rfl
        · rw [hcase] at htf
          simp at htf
      exact cR_obj_array_none hA hi
    · by_cases hO : typeOf map = some "object"
      · cases hp : propsOf map with
        | none => exact cR_obj_object_none hA hO hp
        | some props =>
          rw [tupleFree_obj_object_some hA hO hp, tupleFreeFields_eq_all] at htf
          have hid : canonJsonFields props = props := by
            rw [canonJsonFields_eq_map]
            refine map_cR_id_of_forall (fun p hp' => ?_)
            have hsz := sizeOf_of_propsOf_mem hp hp'
            have htf' : tupleFree p.2 = true := by
              rw [List.all_eq_true] at htf
              exact htf p hp'
            exact ih p.2 hsz htf'
          rw [cR_obj_object_some hA hO hp, hid,
            mapInsert_of_mapGet_eq (propsOf_mapGet hp)]
      · exact cR_obj_other hA hO

/-! ## Idempotence of canonicalize_result_schema -/

theorem canonJsonFields_idem_of {props : List (String × Json)}
    (h : ∀ p ∈ props, canonicalizeResultSchema (canonicalizeResultSchema p.2) =
      canonicalizeResultSchema p.2) :
    canonJsonFields (canonJsonFields props) = canonJsonFields props := by
  induction props with
  | nil => simp [canonJsonFields]
  | cons x xs ih =>
    obtain ⟨k, v⟩ := x
    have h1 := h (k, v) (by simp)
    simp only at h1
    simp [canonJsonFields, h1]
    exact ih (fun p hp => h p (by simp [hp]))

theorem mem_replaceFirst {p : String × Json} {k : String} {v : Json} :
    ∀ {l : List (String × Json)}, p ∈ replaceFirst k v l → p = (k, v) ∨ p ∈ l := by
  intro l
  induction l with
  | nil => simp [replaceFirst]
  | cons hd tl ih =>
    obtain ⟨k', v'⟩ := hd
    by_cases hk : k = k'
    · simp [replaceFirst, hk]
      rintro (h | h)
      · left; simp [h]
      · right; simp [h]
    · simp [replaceFirst, hk]
      rintro (h | h)
      · right; simp [h]
      · rcases ih h with h' | h'
        · left; exact h'
        · right; simp [h']

theorem mem_sortedInsert {p : String × Json} {k : String} {v : Json} :
    ∀ {l : List (String × Json)}, p ∈ sortedInsert k v l → p = (k, v) ∨ p ∈ l := by
  intro l
  induction l with
  | nil => simp [sortedInsert]
  | cons hd tl ih =>
    obtain ⟨k', v'⟩ := hd
    by_cases hlt : k < k'
    · simp [sortedInsert, hlt]
    · intro h
      simp only [sortedInsert, if_neg hlt, List.mem_cons] at h
      rcases h with h | h
      · right; simp [h]
      · rcases ih h with h' | h'
        · left; exact h'
        · right; simp [h']

theorem mem_mapInsert {p : String × Json} {k : String} {v : Json}
    {l : List (String × Json)} (h : p ∈ mapInsert k v l) : p = (k, v) ∨ p ∈ l := by
  unfold mapInsert at h
  by_cases hs : (mapGet k l).isSome
  · rw [if_pos hs] at h
    exact mem_replaceFirst h
  · rw [if_neg hs] at h
    exact mem_sortedInsert h

theorem mem_tuplePropsFrom {p : String × Json} :
    ∀ {i : Nat} {l : List Json}, p ∈ tuplePropsFrom i l → p.2 ∈ l := by
  intro i l
  induction l generalizing i with
  | nil => simp [tuplePropsFrom]
  | cons x xs ih =>
    intro h
    rcases mem_mapInsert h with h' | h'
    · simp [h']
    · simp [ih h']

/-- The tuple-schema object built from already-idempotent items is a
fixed point of `canonicalize_result_schema`. -/
theorem cR_mkTupleSchema {L : List Json}
    (h : ∀ y ∈ L, canonicalizeResultSchema y = y) :
    canonicalizeResultSchema (mkTupleSchema L) = mkTupleSchema L := by
  unfold mkTupleSchema
  have hty := mkTupleSchema_get_type L
  have hA : ¬ typeOf (mapInsert "required" (.arr (tupleRequiredFrom 0 L))
      (mapInsert "properties" (.obj (tuplePropsFrom 0 L))
      (mapInsert "type" (.str "object") []))) = some "array" := by
    simp [typeOf, hty, Json.asStr]
  have hO : typeOf (mapInsert "required" (.arr (tupleRequiredFrom 0 L))
      (mapInsert "properties" (.obj (tuplePropsFrom 0 L))
      (mapInsert "type" (.str "object") []))) = some "object" := by
    simp [typeOf, hty, Json.asStr]
  have hp : propsOf (mapInsert "required" (.arr (tupleRequiredFrom 0 L))
      (mapInsert "properties" (.obj (tuplePropsFrom 0 L))
      (mapInsert "type" (.str "object") []))) = some (tuplePropsFrom 0 L) := by
    simp [propsOf, mkTupleSchema_get_props L, Json.asObj]
  rw [cR_obj_object_some hA hO hp]
  have hid : canonJsonFields (tuplePropsFrom 0 L) = tuplePropsFrom 0 L := by
    rw [canonJsonFields_eq_map]
    refine map_cR_id_of_forall (fun p hp' => h p.2 (mem_tuplePropsFrom hp'))
  rw [hid, mapInsert_of_mapGet_eq (propsOf_mapGet hp)]

/-- `canonicalize_result_schema` is idempotent. -/
theorem cR_idem : ∀ j, canonicalizeResultSchema (canonicalizeResultSchema j) =
    canonicalizeResultSchema j := by
  refine json_size_induction
    (fun j => canonicalizeResultSchema (canonicalizeResultSchema j) =
      canonicalizeResultSchema j) (fun j ih => ?_)
  show canonicalizeResultSchema (canonicalizeResultSchema j) = canonicalizeResultSchema j
  have ih' : ∀ j', sizeOf j' < sizeOf j →
      canonicalizeResultSchema (canonicalizeResultSchema j') =
        canonicalizeResultSchema j' := fun j' hj' => ih j' hj'
  clear ih
  have ih := ih'
  clear ih'
  have htuple : ∀ items : List Json, (∀ x ∈ items, sizeOf x < sizeOf j) →
      canonicalizeResultSchema (mkTupleSchema (canonJsonList items)) =
        mkTupleSchema (canonJsonList items) := by
    intro items hsz
    refine cR_mkTupleSchema (fun y hy => ?_)
    rw [canonJsonList_eq_map] at hy
    obtain ⟨x, hx, rfl⟩ := List.mem_map.mp hy
    exact ih x (hsz x hx)
  cases j with
  | null => simp [cR_null]
  | bool b => simp [cR_bool]
  | num n => simp [cR_num]
  | str s => simp [cR_str]
  | arr items =>
    rw [cR_arr]
    exact htuple items (fun x hx => sizeOf_of_arr_mem hx)
  | obj map =>
    by_cases hA : typeOf map = some "array"
    · cases hi : itemsOf map with
      | some items =>
        rw [cR_obj_array_some hA hi]
        exact htuple items (fun x hx => sizeOf_of_itemsOf_mem hi hx)
      | none =>
        rw [cR_obj_array_none hA hi, cR_obj_array_none hA hi]
    · by_cases hO : typeOf map = some "object"
      · cases hp : propsOf map with
        | none => rw [cR_obj_object_none hA hO hp, cR_obj_object_none hA hO hp]
        | some props =>
          rw [cR_obj_object_some hA hO hp]
          have hty1 : typeOf (mapInsert "properties" (.obj (canonJsonFields props)) map) =
              typeOf map := by
            unfold typeOf
            rw [mapGet_mapInsert_ne (by decide)]
          have hA1 : ¬ typeOf (mapInsert "properties" (.obj (canonJsonFields props)) map)
              = some "array" := by
            rw [hty1]; exact hA
          have hO1 : typeOf (mapInsert "properties" (.obj (canonJsonFields props)) map)
              = some "object" := by
            rw [hty1]; exact hO
          have hp1 : propsOf (mapInsert "properties" (.obj (canonJsonFields props)) map)
              = some (canonJsonFields props) := by
            unfold propsOf
            rw [mapGet_mapInsert_self]
            simp [Json.asObj]
          rw [cR_obj_object_some hA1 hO1 hp1]
          have hidem : canonJsonFields (canonJsonFields props) = canonJsonFields props :=
            canonJsonFields_idem_of
              (fun p hp' => ih p.2 (sizeOf_of_propsOf_mem hp hp'))
          rw [hidem, mapInsert_of_mapGet_eq]
          rw [mapGet_mapInsert_self]
      · rw [cR_obj_other hA hO, cR_obj_other hA hO]

/-! ## canonicalize_output_schema: unfolding and fixpoints -/

theorem asStr_inv {j : Json} {s : String} (h : j.asStr = some s) : j = .str s := by
  cases j <;> simp [Json.asStr] at h
  simp [h]

theorem typeOf_mapGet {map : List (String × Json)} {s : String}
    (h : typeOf map = some s) : mapGet "type" map = some (.str s) := by
  obtain ⟨j, hj, hja⟩ := Option.bind_eq_some.mp h
  rw [asStr_inv hja] at hj
  exact hj

theorem canonOut_obj_some {map : List (String × Json)} {R : Json}
    (hO : typeOf map = some "object") (hE : extractResultSchema (.obj map) = some R) :
    canonicalizeOutputSchema (.obj map) =
      ensureResultRequired
        (mapInsert "properties"
          (.obj (mapInsert "result" (canonicalizeResultSchema R)
            ((propsOf map).getD []))) map) := by
  simp only [canonicalizeOutputSchema, hO, if_true, hE]

theorem canonOut_obj_none {map : List (String × Json)}
    (hO : typeOf map = some "object") (hE : extractResultSchema (.obj map) = none) :
    canonicalizeOutputSchema (.obj map) =
      wrapSchemaInResult (canonicalizeResultSchema (.obj map)) := by
  simp only [canonicalizeOutputSchema, hO, if_true, hE]

theorem canonOut_obj_not_object {map : List (String × Json)}
    (hO : ¬ typeOf map = some "object") :
    canonicalizeOutputSchema (.obj map) =
      wrapSchemaInResult (canonicalizeResultSchema (.obj map)) := by
  simp only [canonicalizeOutputSchema]
  rw [if_neg hO]

theorem canonOut_not_obj {s : Json} (h : s.asObj = none) :
    canonicalizeOutputSchema s = wrapSchemaInResult (canonicalizeResultSchema s) := by
  cases s <;> simp [Json.asObj] at h ⊢ <;> simp [canonicalizeOutputSchema]

/-- `required.push` of `ensure_result_required` guarantees the `result`
entry is flagged afterwards. -/
theorem ensure_required_any (r0 : List Json) :
    (if r0.any (fun v => v.asStr == some "result") then r0
     else r0 ++ [.str "result"]).any (fun v => v.asStr == some "result") = true := by
  by_cases h : r0.any (fun v => v.asStr == some "result") = true
  · simp [h]
  · rw [if_neg h]
    simp [Json.asStr]

theorem ensure_required_mem (r0 : List Json) :
    Json.str "result" ∈
      (if r0.any (fun v => v.asStr == some "result") then r0
       else r0 ++ [.str "result"]) := by
  by_cases h : r0.any (fun v => v.asStr == some "result") = true
  · rw [if_pos h]
    rw [List.any_eq_true] at h
    obtain ⟨v, hv, hvs⟩ := h
    simp at hvs
    rw [asStr_inv hvs] at hv
    exact hv
  · simp [h]

/-- Unfolding of `ensure_result_required`. -/
theorem ensureResultRequired_def (M : List (String × Json)) :
    ensureResultRequired M =
      .obj (mapInsert "required"
        (.arr (if (((mapGet "required" M).bind Json.asArr).getD []).any
                  (fun v => v.asStr == some "result") then
                 ((mapGet "required" M).bind Json.asArr).getD []
               else ((mapGet "required" M).bind Json.asArr).getD [] ++ [.str "result"]))
        M) :=
  rfl

/-- Any object whose `type` is `"object"`, whose `properties` hold a
`result` entry fixed by `canonicalize_result_schema`, and whose
`required` array already flags `"result"`, is a fixed point of
`canonicalize_output_schema`. -/
theorem canonOut_fixpoint_of {M P : List (String × Json)} {c : Json} {r : List Json}
    (hty : mapGet "type" M = some (.str "object"))
    (hprops : mapGet "properties" M = some (.obj P))
    (hres : mapGet "result" P = some c)
    (hc : canonicalizeResultSchema c = c)
    (hreq : mapGet "required" M = some (.arr r))
    (hany : r.any (fun v => v.asStr == some "result") = true) :
    canonicalizeOutputSchema (.obj M) = .obj M := by
  have hO : typeOf M = some "object" := by
    simp [typeOf, hty, Json.asStr]
  have hE : extractResultSchema (.obj M) = some c := by
    simp [extractResultSchema, jget, Json.asObj, hprops, hres]
  rw [canonOut_obj_some hO hE]
  have hPof : propsOf M = some P := by
    simp [propsOf, hprops, Json.asObj]
  rw [hPof]
  simp only [Option.getD_some]
  rw [hc, mapInsert_of_mapGet_eq hres, mapInsert_of_mapGet_eq hprops]
  rw [ensureResultRequired_def]
  have hr0 : ((mapGet "required" M).bind Json.asArr).getD [] = r := by
    rw [hreq]
    simp [Json.asArr]
  rw [hr0]
  rw [if_pos hany, mapInsert_of_mapGet_eq hreq]

/-- `build_result_wrapper` over a `canonicalize_result_schema` fixed
point is itself a fixed point of `canonicalize_output_schema`. -/
theorem canonOut_buildResultWrapper {c : Json} (hc : canonicalizeResultSchema c = c) :
    canonicalizeOutputSchema (buildResultWrapper c) = buildResultWrapper c := by
  unfold buildResultWrapper
  refine canonOut_fixpoint_of (buildResultWrapper_get_type c)
    (buildResultWrapper_get_props c) ?_ hc (buildResultWrapper_get_required c) ?_
  · exact mapGet_mapInsert_self "result" c []
  · simp [Json.asStr]

/-! ## C6: canonicalize_output_schema is idempotent -/

/-- C6: for every JSON schema `s`, `canonicalize_output_schema` is
idempotent: applying it twice yields the same value as applying it
once. -/
theorem claim_C6 (s : Json) :
    canonicalizeOutputSchema (canonicalizeOutputSchema s) =
      canonicalizeOutputSchema s := by
  have hwrap : ∀ t : Json,
      canonicalizeOutputSchema (wrapSchemaInResult (canonicalizeResultSchema t)) =
        wrapSchemaInResult (canonicalizeResultSchema t) := by
    intro t
    unfold wrapSchemaInResult
    exact canonOut_buildResultWrapper (cR_idem t)
  cases hobj : s.asObj with
  | none =>
    rw [canonOut_not_obj hobj]
    exact hwrap s
  | some map =>
    have hs : s = .obj map := by
      cases s <;> simp [Json.asObj] at hobj
      simp [hobj]
    subst hs
    by_cases hO : typeOf map = some "object"
    · cases hE : extractResultSchema (.obj map) with
      | none =>
        rw [canonOut_obj_none hO hE]
        exact hwrap (.obj map)
      | some R =>
        rw [canonOut_obj_some hO hE, ensureResultRequired_def]
        refine canonOut_fixpoint_of ?_ ?_
          (mapGet_mapInsert_self "result" (canonicalizeResultSchema R)
            ((propsOf map).getD [])) (cR_idem R)
          (mapGet_mapInsert_self _ _ _) (ensure_required_any _)
        · rw [mapGet_mapInsert_ne (by decide), mapGet_mapInsert_ne (by decide)]
          exact typeOf_mapGet hO
        · rw [mapGet_mapInsert_ne (by decide), mapGet_mapInsert_self]
    · rw [canonOut_obj_not_object hO]
      exact hwrap (.obj map)

/-! ## C4: shape of the canonicalized output schema -/

theorem tupleFree_obj_object_none {map : List (String × Json)}
    (hA : ¬ typeOf map = some "array") (hO : typeOf map = some "object")
    (hp : propsOf map = none) : tupleFree (.obj map) = true := by
  simp only [tupleFree]
  rw [if_neg hA, if_pos hO]
  split <;> simp_all

/-- The canonical-shape facts of `build_result_wrapper c`. -/
theorem shape_buildResultWrapper (c : Json) :
    ∃ m, buildResultWrapper c = .obj m ∧
      mapGet "type" m = some (.str "object") ∧
      (∃ props, mapGet "properties" m = some (.obj props) ∧
        (mapGet "result" props).isSome) ∧
      (∃ req, mapGet "required" m = some (.arr req) ∧ Json.str "result" ∈ req) := by
  refine ⟨_, rfl, buildResultWrapper_get_type c,
    ⟨mapInsert "result" c [], buildResultWrapper_get_props c, ?_⟩,
    ⟨[.str "result"], buildResultWrapper_get_required c, by simp⟩⟩
  rw [mapGet_mapInsert_self]
  simp

/-- C4 (amended): for every JSON schema `s`, the canonicalized output
schema is an object schema whose `type` is `"object"`, whose
`properties` contain a `result` key, and whose `required` array includes
`"result"`; when `s` is an object-typed schema with no `result`
property, the `canonicalize_result_schema` rewrite of the whole of `s`
becomes the value of the `result` property — which is the whole of `s`
itself exactly when `s` contains no tuple-form array subschema. -/
theorem claim_C4 (s : Json) :
    (∃ m, canonicalizeOutputSchema s = .obj m ∧
      mapGet "type" m = some (.str "object") ∧
      (∃ props, mapGet "properties" m = some (.obj props) ∧
        (mapGet "result" props).isSome) ∧
      (∃ req, mapGet "required" m = some (.arr req) ∧ Json.str "result" ∈ req)) ∧
    (∀ map, s = .obj map → typeOf map = some "object" →
      extractResultSchema s = none →
      ∃ m props, canonicalizeOutputSchema s = .obj m ∧
        mapGet "properties" m = some (.obj props) ∧
        mapGet "result" props = some (canonicalizeResultSchema s)) ∧
    (tupleFree s = true → canonicalizeResultSchema s = s) := by
  refine ⟨?_, ?_, cR_of_tupleFree s⟩
  · cases hobj : s.asObj with
    | none =>
      rw [canonOut_not_obj hobj]
      exact shape_buildResultWrapper _
    | some map =>
      have hs : s = .obj map := by
        cases s <;> simp [Json.asObj] at hobj
        simp [hobj]
      subst hs
      by_cases hO : typeOf map = some "object"
      · cases hE : extractResultSchema (.obj map) with
        | none =>
          rw [canonOut_obj_none hO hE]
          exact shape_buildResultWrapper _
        | some R =>
          rw [canonOut_obj_some hO hE, ensureResultRequired_def]
          refine ⟨_, rfl, ?_, ?_, ?_⟩
          · rw [mapGet_mapInsert_ne (by decide), mapGet_mapInsert_ne (by decide)]
            exact typeOf_mapGet hO
          · refine ⟨mapInsert "result" (canonicalizeResultSchema R)
              ((propsOf map).getD []), ?_, ?_⟩
            · rw [mapGet_mapInsert_ne (by decide), mapGet_mapInsert_self]
            · rw [mapGet_mapInsert_self]
              simp
          · exact ⟨_, mapGet_mapInsert_self _ _ _, ensure_required_mem _⟩
      · rw [canonOut_obj_not_object hO]
        exact shape_buildResultWrapper _
  · intro map hs hO hE
    subst hs
    rw [canonOut_obj_none hO hE]
    refine ⟨_, mapInsert "result" (canonicalizeResultSchema (.obj map)) [], rfl,
      buildResultWrapper_get_props _, ?_⟩
    rw [mapGet_mapInsert_self]

/-- Witness for C4 at the object schema `{type:"object"}` (object-typed,
no `result` property, tuple-free). -/
theorem claim_C4_witness :
    (∃ m props, canonicalizeOutputSchema (.obj [("type", .str "object")]) = .obj m ∧
      mapGet "properties" m = some (.obj props) ∧
      mapGet "result" props =
        some (canonicalizeResultSchema (.obj [("type", .str "object")]))) ∧
    canonicalizeResultSchema (.obj [("type", .str "object")]) =
      .obj [("type", .str "object")] := by
  have h := claim_C4 (.obj [("type", .str "object")])
  have hO : typeOf [("type", Json.str "object")] = some "object" := by
    simp [typeOf, mapGet, Json.asStr]
  have hA : ¬ typeOf [("type", Json.str "object")] = some "array" := by
    simp [hO]
  have hp : propsOf [("type", Json.str "object")] = none := by
    simp [propsOf, mapGet]
  have hE : extractResultSchema (.obj [("type", .str "object")]) = none := by
    simp [extractResultSchema, jget, Json.asObj, mapGet]
  exact ⟨h.2.1 _ rfl hO hE, h.2.2 (tupleFree_obj_object_none hA hO hp)⟩

/-- C4 counterexample: the schema
`{type:"object", properties:{x:{type:"array", items:[{type:"integer"}]}}}`
is object-typed without a `result` property, yet the value placed under
`result` is not the whole of `s`: the nested tuple-form array subschema
is rewritten on the way. -/
theorem claim_C4_counterexample :
    typeOf [("properties",
        Json.obj [("x", Json.obj [("items", .arr [.obj [("type", .str "integer")]]),
          ("type", .str "array")])]), ("type", Json.str "object")] = some "object" ∧
    extractResultSchema (.obj [("properties",
        Json.obj [("x", Json.obj [("items", .arr [.obj [("type", .str "integer")]]),
          ("type", .str "array")])]), ("type", Json.str "object")]) = none ∧
    ¬ (((jget (canonicalizeOutputSchema (.obj [("properties",
          Json.obj [("x", Json.obj [("items", .arr [.obj [("type", .str "integer")]]),
            ("type", .str "array")])]), ("type", Json.str "object")]))
        "properties").bind Json.asObj).bind (mapGet "result") =
      some (.obj [("properties",
        Json.obj [("x", Json.obj [("items", .arr [.obj [("type", .str "integer")]]),
          ("type", .str "array")])]), ("type", Json.str "object")])) := by
  have hO : typeOf [("properties",
      Json.obj [("x", Json.obj [("items", .arr [.obj [("type", .str "integer")]]),
        ("type", .str "array")])]), ("type", Json.str "object")] = some "object" := by
    simp [typeOf, mapGet, Json.asStr]
  have hE : extractResultSchema (.obj [("properties",
      Json.obj [("x", Json.obj [("items", .arr [.obj [("type", .str "integer")]]),
        ("type", .str "array")])]), ("type", Json.str "object")]) = none := by
    simp [extractResultSchema, jget, Json.asObj, mapGet]
  refine ⟨hO, hE, ?_⟩
  rw [canonOut_obj_none hO hE]
  unfold wrapSchemaInResult
  have hrv : ∀ c : Json, ((jget (buildResultWrapper c) "properties").bind
      Json.asObj).bind (mapGet "result") = some c := by
    intro c
    have h1 : jget (buildResultWrapper c) "properties" =
        some (.obj (mapInsert "result" c [])) := by
      unfold buildResultWrapper jget
      simp only [Json.asObj, Option.some_bind]
      exact buildResultWrapper_get_props c
    rw [h1]
    simp only [Option.some_bind, Json.asObj]
    exact mapGet_mapInsert_self "result" c []
  rw [hrv]
  intro h
  simp only [Option.some_inj] at h
  -- From `canonicalize_result_schema s = s`, extract the untouched inner
  -- `x` subschema and contradict its rewritten tuple form.
  have hA : ¬ typeOf [("properties",
      Json.obj [("x", Json.obj [("items", .arr [.obj [("type", .str "integer")]]),
        ("type", .str "array")])]), ("type", Json.str "object")] = some "array" := by
    simp [hO]
  have hp : propsOf [("properties",
      Json.obj [("x", Json.obj [("items", .arr [.obj [("type", .str "integer")]]),
        ("type", .str "array")])]), ("type", Json.str "object")] =
      some [("x", Json.obj [("items", .arr [.obj [("type", .str "integer")]]),
        ("type", .str "array")])] := by
    simp [propsOf, mapGet, Json.asObj]
  rw [cR_obj_object_some hA hO hp] at h
  have hx : canonJsonFields [("x", Json.obj [("items", .arr [.obj [("type",
      .str "integer")]]), ("type", .str "array")])] =
      [("x", canonicalizeResultSchema (Json.obj [("items", .arr [.obj [("type",
        .str "integer")]]), ("type", .str "array")]))] := by
    rw [canonJsonFields_eq_map]
    simp
  rw [hx] at h
  have hxA : typeOf [("items", Json.arr [Json.obj [("type", .str "integer")]]),
      ("type", Json.str "array")] = some "array" := by
    simp [typeOf, mapGet, Json.asStr]
  have hxI : itemsOf [("items", Json.arr [Json.obj [("type", .str "integer")]]),
      ("type", Json.str "array")] = some [Json.obj [("type", .str "integer")]] := by
    simp [itemsOf, mapGet, Json.asArr]
  rw [cR_obj_array_some hxA hxI] at h
  have hAB : mapInsert "properties"
      (.obj [("x", mkTupleSchema (canonJsonList [Json.obj [("type",
        .str "integer")]]))])
      [("properties",
        Json.obj [("x", Json.obj [("items", .arr [.obj [("type", .str "integer")]]),
          ("type", .str "array")])]), ("type", Json.str "object")] =
      [("properties",
        Json.obj [("x", Json.obj [("items", .arr [.obj [("type", .str "integer")]]),
          ("type", .str "array")])]), ("type", Json.str "object")] := by
    injection h
  have h2 := congrArg (mapGet "properties") hAB
  rw [mapGet_mapInsert_self] at h2
  have hpe : mapGet "properties" [("properties",
      Json.obj [("x", Json.obj [("items", .arr [.obj [("type", .str "integer")]]),
        ("type", .str "array")])]), ("type", Json.str "object")] =
      some (Json.obj [("x", Json.obj [("items", .arr [.obj [("type",
        .str "integer")]]), ("type", .str "array")])]) := by
    simp [mapGet]
  rw [hpe] at h2
  simp only [Option.some_inj, Json.obj.injEq, List.cons.injEq, Prod.mk.injEq,
    and_true, true_and] at h2
  have hx2 : mkTupleSchema (canonJsonList [Json.obj [("type", .str "integer")]]) =
      Json.obj [("items", .arr [.obj [("type", .str "integer")]]),
        ("type", .str "array")] := h2
  have h3 : mapGet "type" (mapInsert "required"
      (.arr (tupleRequiredFrom 0 (canonJsonList [Json.obj [("type",
        .str "integer")]])))
      (mapInsert "properties"
        (.obj (tuplePropsFrom 0 (canonJsonList [Json.obj [("type",
          .str "integer")]])))
      (mapInsert "type" (.str "object") []))) =
      mapGet "type" [("items", Json.arr [Json.obj [("type", .str "integer")]]),
        ("type", Json.str "array")] := by
    unfold mkTupleSchema at hx2
    injection hx2 with hx3
    exact congrArg (mapGet "type") hx3
  rw [mkTupleSchema_get_type] at h3
  have h4 : mapGet "type" [("items", Json.arr [Json.obj [("type", .str "integer")]]),
      ("type", Json.str "array")] = some (Json.str "array") := by
    simp [mapGet]
  rw [h4] at h3
  simp at h3

/-! ## mapRemoveGet and normalizeDeclared lemmas (for C5) -/

theorem mapRemoveGet_fst (k : String) :
    ∀ (m : List (String × Json)), (mapRemoveGet k m).1 = mapGet k m := by
  intro m
  induction m with
  | nil => simp [mapRemoveGet, mapGet]
  | cons hd tl ih =>
    obtain ⟨k', v⟩ := hd
    by_cases hk : k = k' <;> simp [mapRemoveGet, mapGet, hk, ih]

theorem mapGet_mapRemoveGet_ne {n k : String} (hne : n ≠ k) :
    ∀ (m : List (String × Json)), mapGet n (mapRemoveGet k m).2 = mapGet n m := by
  intro m
  induction m with
  | nil => simp [mapRemoveGet]
  | cons hd tl ih =>
    obtain ⟨k', v⟩ := hd
    by_cases hk : k = k'
    · subst hk
      simp [mapRemoveGet, mapGet, hne]
    · by_cases hn : n = k' <;> simp [mapRemoveGet, mapGet, hk, hn, ih]

theorem mapRemoveGet_of_none {k : String} {m : List (String × Json)}
    (h : mapGet k m = none) : mapRemoveGet k m = (none, m) := by
  induction m with
  | nil => simp [mapRemoveGet]
  | cons hd tl ih =>
    obtain ⟨k', v⟩ := hd
    by_cases hk : k = k'
    · simp [mapGet, hk] at h
    · simp [mapGet, hk] at h
      simp [mapRemoveGet, hk, ih h]

theorem mapGet_mapRemoveGet_none {n k : String} {m : List (String × Json)}
    (h : mapGet n m = none) : mapGet n (mapRemoveGet k m).2 = none := by
  by_cases hk : n = k
  · subst hk
    rw [mapRemoveGet_of_none h]
    exact h
  · rw [mapGet_mapRemoveGet_ne hk]
    exact h

theorem mapRemoveGet_keys_sublist (k : String) :
    ∀ (m : List (String × Json)),
      ((mapRemoveGet k m).2.map Prod.fst).Sublist (m.map Prod.fst) := by
  intro m
  induction m with
  | nil => simp [mapRemoveGet]
  | cons hd tl ih =>
    obtain ⟨k', v⟩ := hd
    by_cases hk : k = k'
    · simp only [mapRemoveGet, if_pos hk]
      exact List.sublist_cons_self k' (tl.map Prod.fst)
    · simp only [mapRemoveGet, if_neg hk, List.map_cons]
      exact List.Sublist.cons₂ k' ih

theorem normalizeDeclared_acc_null {k : String} :
    ∀ (props : List (String × Json)) (m : List (String × Json)),
      (mapGet k props).isSome → mapGet k m = none →
      mapGet k (normalizeDeclared props m).1 = some .null := by
  intro props
  induction props with
  | nil => intro m h; simp [mapGet] at h
  | cons hd rest ih =>
    intro m hprops hm
    obtain ⟨key, ps⟩ := hd
    by_cases hk : k = key
    · subst hk
      have hr : mapRemoveGet k m = (none, m) := mapRemoveGet_of_none hm
      simp only [normalizeDeclared, hr]
      exact mapGet_mapInsert_self k .null _
    · simp only [mapGet, if_neg hk] at hprops
      simp only [normalizeDeclared]
      cases hrg : mapRemoveGet key m with
      | mk found m' =>
        cases found with
        | some v =>
          simp only
          rw [mapGet_mapInsert_ne hk]
          refine ih m' hprops ?_
          have := @mapGet_mapRemoveGet_none _ key _ hm
          rw [hrg] at this
          exact this
        | none =>
          simp only
          rw [mapGet_mapInsert_ne hk]
          exact ih m hprops hm

theorem normalizeDeclared_acc_none {k : String} :
    ∀ (props : List (String × Json)) (m : List (String × Json)),
      mapGet k props = none →
      mapGet k (normalizeDeclared props m).1 = none := by
  intro props
  induction props with
  | nil => intro m h; simp [normalizeDeclared, mapGet]
  | cons hd rest ih =>
    intro m hprops
    obtain ⟨key, ps⟩ := hd
    by_cases hk : k = key
    · simp [mapGet, hk] at hprops
    · simp only [mapGet, if_neg hk] at hprops
      simp only [normalizeDeclared]
      cases hrg : mapRemoveGet key m with
      | mk found m' =>
        cases found with
        | some v =>
          simp only
          rw [mapGet_mapInsert_ne hk]
          exact ih m' hprops
        | none =>
          simp only
          rw [mapGet_mapInsert_ne hk]
          exact ih m hprops

theorem normalizeDeclared_rest_undeclared {k : String} :
    ∀ (props : List (String × Json)) (m : List (String × Json)),
      mapGet k props = none →
      mapGet k (normalizeDeclared props m).2 = mapGet k m := by
  intro props
  induction props with
  | nil => intro m h; simp [normalizeDeclared]
  | cons hd rest ih =>
    intro m hprops
    obtain ⟨key, ps⟩ := hd
    by_cases hk : k = key
    · simp [mapGet, hk] at hprops
    · simp only [mapGet, if_neg hk] at hprops
      simp only [normalizeDeclared]
      cases hrg : mapRemoveGet key m with
      | mk found m' =>
        cases found with
        | some v =>
          simp only
          rw [ih m' hprops]
          have := mapGet_mapRemoveGet_ne hk m
          rw [hrg] at this
          exact this
        | none =>
          simp only
          exact ih m hprops

theorem normalizeDeclared_rest_none {k : String} :
    ∀ (props : List (String × Json)) (m : List (String × Json)),
      mapGet k m = none →
      mapGet k (normalizeDeclared props m).2 = none := by
  intro props
  induction props with
  | nil => intro m h; simpa [normalizeDeclared] using h
  | cons hd rest ih =>
    intro m hm
    obtain ⟨key, ps⟩ := hd
    simp only [normalizeDeclared]
    cases hrg : mapRemoveGet key m with
    | mk found m' =>
      cases found with
      | some v =>
        simp only
        refine ih m' ?_
        have := @mapGet_mapRemoveGet_none _ key _ hm
        rw [hrg] at this
        exact this
      | none =>
        simp only
        exact ih m hm

theorem normalizeDeclared_rest_keys_sublist :
    ∀ (props : List (String × Json)) (m : List (String × Json)),
      ((normalizeDeclared props m).2.map Prod.fst).Sublist (m.map Prod.fst) := by
  intro props
  induction props with
  | nil => intro m; simp [normalizeDeclared]
  | cons hd rest ih =>
    intro m
    obtain ⟨key, ps⟩ := hd
    simp only [normalizeDeclared]
    cases hrg : mapRemoveGet key m with
    | mk found m' =>
      cases found with
      | some v =>
        simp only
        have h1 := ih m'
        have h2 := mapRemoveGet_keys_sublist key m
        rw [hrg] at h2
        exact h1.trans h2
      | none =>
        simp only
        exact ih m

theorem mapGet_none_of_not_mem_keys {k : String} {l : List (String × Json)}
    (h : k ∉ l.map Prod.fst) : mapGet k l = none := by
  induction l with
  | nil => simp [mapGet]
  | cons hd tl ih =>
    obtain ⟨k', v⟩ := hd
    have h1 : k ≠ k' := fun he => h (by simp [he])
    have h2 : k ∉ tl.map Prod.fst := fun he => h (by simp [he])
    simp [mapGet, h1, ih h2]

theorem foldl_mapInsert_absent {k : String} :
    ∀ (rest : List (String × Json)) (acc : List (String × Json)),
      mapGet k rest = none →
      mapGet k (rest.foldl (fun acc p => mapInsert p.1 p.2 acc) acc) =
        mapGet k acc := by
  intro rest
  induction rest with
  | nil => intro acc h; simp
  | cons hd tl ih =>
    intro acc h
    obtain ⟨k', w⟩ := hd
    by_cases hk : k = k'
    · simp [mapGet, hk] at h
    · simp only [mapGet, if_neg hk] at h
      simp only [List.foldl_cons]
      rw [ih _ h, mapGet_mapInsert_ne hk]

theorem foldl_mapInsert_present {k : String} {w : Json} :
    ∀ (rest : List (String × Json)) (acc : List (String × Json)),
      (rest.map Prod.fst).Nodup → mapGet k rest = some w →
      mapGet k (rest.foldl (fun acc p => mapInsert p.1 p.2 acc) acc) = some w := by
  intro rest
  induction rest with
  | nil => intro acc _ h; simp [mapGet] at h
  | cons hd tl ih =>
    intro acc hnd h
    obtain ⟨k', w'⟩ := hd
    rw [List.map_cons, List.nodup_cons] at hnd
    by_cases hk : k = k'
    · subst hk
      have hw : w' = w := by simpa [mapGet] using h
      subst hw
      simp only [List.foldl_cons]
      rw [foldl_mapInsert_absent tl _ (mapGet_none_of_not_mem_keys hnd.1),
        mapGet_mapInsert_self]
    · simp only [mapGet, if_neg hk] at h
      simp only [List.foldl_cons]
      exact ih _ hnd.2 h

/-! ## C5: ensure_structured_result -/

/-- Unfolding of `normalize_result_value` in its declared-properties
branch (`type == "object"`, a properties map not consisting solely of
`val`-prefixed keys, and an object value). -/
theorem nRV_object_decl {R : Json} {props : List (String × Json)}
    (hty : (jget R "type").bind Json.asStr = some "object")
    (hp : (jget R "properties").bind Json.asObj = some props)
    (hall : props.all (fun p => p.1.startsWith "val") = false)
    (vm : List (String × Json)) :
    normalizeResultValue R (.obj vm) =
      .obj ((normalizeDeclared props vm).2.foldl
        (fun acc p => mapInsert p.1 p.2 acc) (normalizeDeclared props vm).1) := by
  rw [normalizeResultValue]
  rw [hty]
  split
  · split
    · rename_i props' hp2
      rw [hp] at hp2
      injection hp2 with hp2
      subst hp2
      rw [if_neg (by simp [hall])]
    · rename_i hp2
      rw [hp] at hp2
      simp at hp2
  · rename_i heq
    exact absurd heq (by simp)
  · rename_i h1 h2
    exact absurd rfl h1

/-- C5 (amended): if the schema has no `result` property,
`ensure_structured_result(schema, v)` returns `v` unchanged; otherwise
it returns an object whose `result` key holds `v` — first unwrapped from
a pre-existing `result` key, in which case `v`'s remaining keys are kept
alongside at the top level — recursively aligned to the result schema;
and in the aligned value of an object under an object-typed schema,
properties declared in the schema but missing from the value are filled
with `null`, while properties of the value not declared in the schema
are preserved. -/
theorem claim_C5 (schema v : Json) :
    (extractResultSchema schema = none → ensureStructuredResult schema v = v) ∧
    (∀ R, extractResultSchema schema = some R →
      ∃ m, ensureStructuredResult schema v = .obj m ∧
        mapGet "result" m = some (normalizeResultValue R (unwrapResult v)) ∧
        (∀ vm, v = .obj vm → (mapGet "result" vm).isSome →
          ∀ k, k ≠ "result" → mapGet k m = mapGet k vm)) ∧
    (∀ R props vm, (jget R "type").bind Json.asStr = some "object" →
      (jget R "properties").bind Json.asObj = some props →
      props.all (fun p => p.1.startsWith "val") = false →
      ∃ nm, normalizeResultValue R (.obj vm) = .obj nm ∧
        (∀ k, (mapGet k props).isSome → mapGet k vm = none →
          mapGet k nm = some .null) ∧
        ((vm.map Prod.fst).Nodup →
          ∀ k w, mapGet k props = none → mapGet k vm = some w →
            mapGet k nm = some w)) := by
  refine ⟨fun hE => by simp [ensureStructuredResult, hE], fun R hE => ?_,
    fun R props vm hty hp hall => ?_⟩
  · cases v with
    | obj m =>
      cases hrg : mapRemoveGet "result" m with
      | mk found m' =>
        cases found with
        | some rv =>
          refine ⟨mapInsert "result" (normalizeResultValue R rv) m', ?_, ?_, ?_⟩
          · simp only [ensureStructuredResult, hE, hrg]
          · rw [mapGet_mapInsert_self]
            have hget : mapGet "result" m = some rv := by
              have := mapRemoveGet_fst "result" m
              rw [hrg] at this
              exact this.symm
            simp [unwrapResult, hget]
          · intro vm hvm _ k hk
            injection hvm with hvm
            subst hvm
            rw [mapGet_mapInsert_ne hk]
            have := mapGet_mapRemoveGet_ne hk m
            rw [hrg] at this
            exact this
        | none =>
          have hget : mapGet "result" m = none := by
            have := mapRemoveGet_fst "result" m
            rw [hrg] at this
            exact this.symm
          refine ⟨mapInsert "result" (normalizeResultValue R (.obj m)) [], ?_, ?_, ?_⟩
          · simp only [ensureStructuredResult, hE, hrg]
          · rw [mapGet_mapInsert_self]
            simp [unwrapResult, hget]
          · intro vm hvm hres _ _
            injection hvm with hvm
            subst hvm
            rw [hget] at hres
            simp at hres
    | null =>
      refine ⟨mapInsert "result" (normalizeResultValue R (Json.null)) [],
        by simp only [ensureStructuredResult, hE], ?_, ?_⟩
      · rw [mapGet_mapInsert_self]
        simp [unwrapResult]
      · intro vm hvm
        simp at hvm
    | bool b =>
      refine ⟨mapInsert "result" (normalizeResultValue R (.bool b)) [],
        by simp only [ensureStructuredResult, hE], ?_, ?_⟩
      · rw [mapGet_mapInsert_self]
        simp [unwrapResult]
      · intro vm hvm
        simp at hvm
    | num n =>
      refine ⟨mapInsert "result" (normalizeResultValue R (.num n)) [],
        by simp only [ensureStructuredResult, hE], ?_, ?_⟩
      · rw [mapGet_mapInsert_self]
        simp [unwrapResult]
      · intro vm hvm
        simp at hvm
    | str str =>
      refine ⟨mapInsert "result" (normalizeResultValue R (.str str)) [],
        by simp only [ensureStructuredResult, hE], ?_, ?_⟩
      · rw [mapGet_mapInsert_self]
        simp [unwrapResult]
      · intro vm hvm
        simp at hvm
    | arr items =>
      refine ⟨mapInsert "result" (normalizeResultValue R (.arr items)) [],
        by simp only [ensureStructuredResult, hE], ?_, ?_⟩
      · rw [mapGet_mapInsert_self]
        simp [unwrapResult]
      · intro vm hvm
        simp at hvm
  · refine ⟨_, nRV_object_decl hty hp hall vm, fun k hdecl hmiss => ?_,
      fun hnd k w hundecl hpresent => ?_⟩
    · rw [foldl_mapInsert_absent _ _ (normalizeDeclared_rest_none props vm hmiss)]
      exact normalizeDeclared_acc_null props vm hdecl hmiss
    · have hrest : mapGet k (normalizeDeclared props vm).2 = some w := by
        rw [normalizeDeclared_rest_undeclared props vm hundecl]
        exact hpresent
      refine foldl_mapInsert_present _ _ ?_ hrest
      exact hnd.sublist (normalizeDeclared_rest_keys_sublist props vm)

/-- Witness for C5 at a schema with a `result` property and a value with
a pre-existing `result` key plus a sibling, and at a declared/missing/
extra property alignment. -/
theorem claim_C5_witness :
    (∃ m, ensureStructuredResult
        (.obj [("properties", .obj [("result", .obj [("type", .str "string")])])])
        (.obj [("extra", .num 1), ("result", .str "x")]) = .obj m ∧
      mapGet "result" m = some (normalizeResultValue (.obj [("type", .str "string")])
        (unwrapResult (.obj [("extra", .num 1), ("result", .str "x")]))) ∧
      mapGet "extra" m = some (.num 1)) := by
  have hE : extractResultSchema
      (.obj [("properties", .obj [("result", .obj [("type", .str "string")])])]) =
      some (.obj [("type", .str "string")]) := by
    simp [extractResultSchema, jget, Json.asObj, mapGet]
  obtain ⟨m, hm, hres, hsib⟩ := (claim_C5
    (.obj [("properties", .obj [("result", .obj [("type", .str "string")])])])
    (.obj [("extra", .num 1), ("result", .str "x")])).2.1
    (.obj [("type", .str "string")]) hE
  refine ⟨m, hm, hres, ?_⟩
  rw [hsib [("extra", .num 1), ("result", .str "x")] rfl (by simp [mapGet]) "extra"
    (by decide)]
  simp [mapGet]

/-- C5 counterexample: with a schema holding a string-typed `result`
property and the value `{result:"x"}`, `ensure_structured_result`
unwraps the pre-existing `result` key (yielding `{result:"x"}`), whereas
the claim as stated aligns the whole value, yielding
`{result:{result:"x"}}`. -/
theorem claim_C5_counterexample :
    ensureStructuredResult
      (.obj [("properties", .obj [("result", .obj [("type", .str "string")])])])
      (.obj [("result", .str "x")]) ≠
    claimedEnsureStructuredResult
      (.obj [("properties", .obj [("result", .obj [("type", .str "string")])])])
      (.obj [("result", .str "x")]) := by
  have hE : extractResultSchema
      (.obj [("properties", .obj [("result", .obj [("type", .str "string")])])]) =
      some (.obj [("type", .str "string")]) := by
    simp [extractResultSchema, jget, Json.asObj, mapGet]
  have hrg : mapRemoveGet "result" [("result", Json.str "x")] =
      (some (.str "x"), []) := by
    simp [mapRemoveGet]
  have hnrv1 : normalizeResultValue (.obj [("type", .str "string")]) (.str "x") =
      .str "x" := by
    rw [normalizeResultValue]
    simp [jget, Json.asObj, mapGet, Json.asStr]
    all_goals (intros; simp_all)
  have hnrv2 : normalizeResultValue (.obj [("type", .str "string")])
      (.obj [("result", .str "x")]) = .obj [("result", .str "x")] := by
    rw [normalizeResultValue]
    simp [jget, Json.asObj, mapGet, Json.asStr]
  have h1 : ensureStructuredResult
      (.obj [("properties", .obj [("result", .obj [("type", .str "string")])])])
      (.obj [("result", .str "x")]) = .obj [("result", .str "x")] := by
    simp only [ensureStructuredResult, hE, hrg, hnrv1]
    rfl
  have h2 : claimedEnsureStructuredResult
      (.obj [("properties", .obj [("result", .obj [("type", .str "string")])])])
      (.obj [("result", .str "x")]) =
      .obj [("result", .obj [("result", .str "x")])] := by
    simp only [claimedEnsureStructuredResult, hE, hnrv2]
    rfl
  rw [h1, h2]
  simp

/-! ## Registry characterization lemmas (for C2) -/

theorem alookup_none_of_not_mem_keys {α : Type} {k : String} {l : List (String × α)}
    (h : k ∉ l.map Prod.fst) : alookup k l = none := by
  induction l with
  | nil => simp [alookup]
  | cons hd tl ih =>
    obtain ⟨k', v⟩ := hd
    have h1 : k ≠ k' := fun he => h (by simp [he])
    have h2 : k ∉ tl.map Prod.fst := fun he => h (by simp [he])
    simp [alookup, h1, ih h2]

theorem aremove_keys_sublist {α : Type} (k : String) :
    ∀ (l : List (String × α)), ((aremove k l).map Prod.fst).Sublist (l.map Prod.fst) := by
  intro l
  induction l with
  | nil => simp [aremove]
  | cons hd tl ih =>
    obtain ⟨k', v⟩ := hd
    by_cases hk : k = k'
    · simp only [aremove, if_pos hk]
      exact List.sublist_cons_self k' (tl.map Prod.fst)
    · simp only [aremove, if_neg hk, List.map_cons]
      exact List.Sublist.cons₂ k' ih

theorem alookup_aremove_self_of_nodup {α : Type} {k : String} {l : List (String × α)}
    (hnd : (l.map Prod.fst).Nodup) : alookup k (aremove k l) = none := by
  induction l with
  | nil => simp [aremove, alookup]
  | cons hd tl ih =>
    obtain ⟨k', v⟩ := hd
    rw [List.map_cons, List.nodup_cons] at hnd
    by_cases hk : k = k'
    · subst hk
      simp only [aremove, if_pos rfl]
      exact alookup_none_of_not_mem_keys hnd.1
    · simp only [aremove, if_neg hk, alookup, if_neg hk]
      exact ih hnd.2

theorem ainsert_keys {α : Type} (k : String) (v : α) :
    ∀ (l : List (String × α)), (ainsert k v l).map Prod.fst =
      if k ∈ l.map Prod.fst then l.map Prod.fst else l.map Prod.fst ++ [k] := by
  intro l
  induction l with
  | nil => simp [ainsert]
  | cons hd tl ih =>
    obtain ⟨k', v'⟩ := hd
    by_cases hk : k = k'
    · subst hk
      simp [ainsert]
    · simp only [ainsert, if_neg hk, List.map_cons, ih]
      by_cases hmem : k ∈ tl.map Prod.fst
      · simp [hmem, hk, Ne.symm hk]
      · simp [hmem, hk, Ne.symm hk]

theorem ainsert_keys_nodup {α : Type} {k : String} {v : α} {l : List (String × α)}
    (hnd : (l.map Prod.fst).Nodup) : ((ainsert k v l).map Prod.fst).Nodup := by
  rw [ainsert_keys]
  by_cases hmem : k ∈ l.map Prod.fst
  · simp [hmem, hnd]
  · simp [hmem, hnd, List.nodup_append, hnd]

theorem pushToolEntry_keys_nodup {name : String} {info : ToolInfo}
    {tm : List (String × List ToolInfo)} (hnd : (tm.map Prod.fst).Nodup) :
    ((pushToolEntry name info tm).map Prod.fst).Nodup := by
  unfold pushToolEntry
  cases alookup name tm <;> exact ainsert_keys_nodup hnd

theorem alookup_pushToolEntry_ne {n name : String} (hne : n ≠ name) (info : ToolInfo)
    (tm : List (String × List ToolInfo)) :
    alookup n (pushToolEntry name info tm) = alookup n tm := by
  unfold pushToolEntry
  cases alookup name tm <;> rw [alookup_ainsert_ne hne]

theorem alookup_pushToolEntry_self (name : String) (info : ToolInfo)
    (tm : List (String × List ToolInfo)) :
    alookup name (pushToolEntry name info tm) =
      some ((alookup name tm).getD [] ++ [info]) := by
  unfold pushToolEntry
  cases h : alookup name tm <;> simp [h, alookup_ainsert_self]

/-- The tool-map effect of `register_tools`' per-tool loop, per key. -/
theorem alookup_registerFold (componentId : String) :
    ∀ (tools : List ToolMetadata) (tm : List (String × List ToolInfo)) (n : String),
      alookup n (tools.foldl (fun acc t =>
          pushToolEntry t.normalizedName ⟨componentId, t.identifier, t.schema⟩ acc) tm) =
        match alookup n tm with
        | some l => some (l ++ newToolInfosFor componentId n tools)
        | none =>
          if (newToolInfosFor componentId n tools).isEmpty then none
          else some (newToolInfosFor componentId n tools) := by
  intro tools
  induction tools with
  | nil =>
    intro tm n
    simp only [List.foldl_nil, newToolInfosFor, List.filter_nil, List.map_nil]
    cases alookup n tm <;> simp
  | cons t rest ih =>
    intro tm n
    simp only [List.foldl_cons]
    rw [ih]
    by_cases hn : t.normalizedName = n
    · have hnew : newToolInfosFor componentId n (t :: rest) =
          ⟨componentId, t.identifier, t.schema⟩ :: newToolInfosFor componentId n rest := by
        simp [newToolInfosFor, List.filter_cons, hn]
      rw [hnew]
      subst hn
      rw [alookup_pushToolEntry_self]
      cases h : alookup t.normalizedName tm <;> simp [h]
    · have hnew : newToolInfosFor componentId n (t :: rest) =
          newToolInfosFor componentId n rest := by
        simp only [newToolInfosFor, List.filter_cons]
        rw [if_neg (by simpa using hn)]
      rw [hnew, alookup_pushToolEntry_ne (Ne.symm hn)]

theorem registerFold_keys_nodup {componentId : String} :
    ∀ {tools : List ToolMetadata} {tm : List (String × List ToolInfo)},
      (tm.map Prod.fst).Nodup →
      ((tools.foldl (fun acc t =>
          pushToolEntry t.normalizedName ⟨componentId, t.identifier, t.schema⟩ acc)
        tm).map Prod.fst).Nodup := by
  intro tools
  induction tools with
  | nil => intro tm h; simpa using h
  | cons t rest ih =>
    intro tm h
    simp only [List.foldl_cons]
    exact ih (pushToolEntry_keys_nodup h)

/-- Filtering twice with the same predicate filters once. -/
theorem filter_self_idem {α : Type} (p : α → Bool) (l : List α) :
    (l.filter p).filter p = l.filter p := by
  induction l with
  | nil => rfl
  | cons x xs ih =>
    by_cases h : p x
    · simp [List.filter_cons, h, ih]
    · simp [List.filter_cons, h, ih]

/-- `dropComponentInfos` is idempotent. -/
theorem dropComponentInfos_idem (componentId : String)
    (o : Option (List ToolInfo)) :
    dropComponentInfos componentId (dropComponentInfos componentId o) =
      dropComponentInfos componentId o := by
  cases o with
  | none => rfl
  | some infos =>
    by_cases h : (infos.filter (fun i => i.componentId ≠ componentId)).isEmpty
    · have h1 : dropComponentInfos componentId (some infos) = none := by
        simp only [dropComponentInfos]
        rw [if_pos h]
      rw [h1]
      rfl
    · have h1 : dropComponentInfos componentId (some infos) =
          some (infos.filter (fun i => i.componentId ≠ componentId)) := by
        simp only [dropComponentInfos]
        rw [if_neg h]
      rw [h1]
      simp only [dropComponentInfos]
      rw [filter_self_idem, if_neg h]

/-- `dropComponentInfos` results never mention the dropped component. -/
theorem dropComponentInfos_free {componentId : String} {o : Option (List ToolInfo)}
    {infos : List ToolInfo} (h : dropComponentInfos componentId o = some infos) :
    ∀ info ∈ infos, info.componentId ≠ componentId := by
  cases o with
  | none => simp [dropComponentInfos] at h
  | some l =>
    simp only [dropComponentInfos] at h
    by_cases he : (l.filter (fun i => i.componentId ≠ componentId)).isEmpty
    · rw [if_pos he] at h
      cases h
    · rw [if_neg he] at h
      injection h with h
      subst h
      intro info hinfo
      have := List.of_mem_filter hinfo
      simpa using this

theorem unregisterToolName_of_none {componentId name : String}
    {tm : List (String × List ToolInfo)} (h : alookup name tm = none) :
    unregisterToolName componentId tm name = tm := by
  unfold unregisterToolName
  rw [h]

theorem unregisterToolName_of_some {componentId name : String}
    {tm : List (String × List ToolInfo)} {infos : List ToolInfo}
    (h : alookup name tm = some infos) :
    unregisterToolName componentId tm name =
      if (infos.filter (fun i => i.componentId ≠ componentId)).isEmpty then
        aremove name tm
      else ainsert name (infos.filter (fun i => i.componentId ≠ componentId)) tm := by
  unfold unregisterToolName
  rw [h]

/-- Per-key effect of `unregister_component`'s per-name loop body. -/
theorem alookup_unregisterToolName {componentId : String}
    {tm : List (String × List ToolInfo)} (htm : (tm.map Prod.fst).Nodup)
    (name m : String) :
    alookup m (unregisterToolName componentId tm name) =
      if m = name then dropComponentInfos componentId (alookup name tm)
      else alookup m tm := by
  cases h : alookup name tm with
  | none =>
    rw [unregisterToolName_of_none h]
    by_cases hm : m = name
    · subst hm
      rw [if_pos rfl]
      rw [show dropComponentInfos componentId none = none from rfl]
      exact h
    · rw [if_neg hm]
  | some infos =>
    rw [unregisterToolName_of_some h]
    have hd_none : (infos.filter (fun i => i.componentId ≠ componentId)).isEmpty = true →
        dropComponentInfos componentId (some infos) = none := fun he => by
      simp only [dropComponentInfos]
      rw [if_pos he]
    have hd_some : ¬ (infos.filter (fun i => i.componentId ≠ componentId)).isEmpty = true →
        dropComponentInfos componentId (some infos) =
          some (infos.filter (fun i => i.componentId ≠ componentId)) := fun he => by
      simp only [dropComponentInfos]
      rw [if_neg he]
    by_cases he : (infos.filter (fun i => i.componentId ≠ componentId)).isEmpty = true
    · rw [if_pos he]
      by_cases hm : m = name
      · subst hm
        rw [if_pos rfl, hd_none he]
        exact alookup_aremove_self_of_nodup htm
      · rw [if_neg hm]
        exact alookup_aremove_ne hm tm
    · rw [if_neg he]
      by_cases hm : m = name
      · subst hm
        rw [if_pos rfl, hd_some he]
        exact alookup_ainsert_self _ _ tm
      · rw [if_neg hm]
        exact alookup_ainsert_ne hm _ tm

theorem unregisterToolName_keys_nodup {componentId : String}
    {tm : List (String × List ToolInfo)} (htm : (tm.map Prod.fst).Nodup)
    (name : String) :
    ((unregisterToolName componentId tm name).map Prod.fst).Nodup := by
  cases h : alookup name tm with
  | none =>
    rw [unregisterToolName_of_none h]
    exact htm
  | some infos =>
    rw [unregisterToolName_of_some h]
    by_cases he : (infos.filter (fun i => i.componentId ≠ componentId)).isEmpty = true
    · rw [if_pos he]
      exact htm.sublist (aremove_keys_sublist name tm)
    · rw [if_neg he]
      exact ainsert_keys_nodup htm

/-- Per-key effect of the whole unregistration fold. -/
theorem alookup_unregFold {componentId : String} :
    ∀ (names : List String) (tm : List (String × List ToolInfo)),
      (tm.map Prod.fst).Nodup → ∀ m,
      alookup m (names.foldl (unregisterToolName componentId) tm) =
        if m ∈ names then dropComponentInfos componentId (alookup m tm)
        else alookup m tm := by
  intro names
  induction names with
  | nil => intro tm _ m; simp
  | cons name rest ih =>
    intro tm htm m
    simp only [List.foldl_cons]
    rw [ih _ (unregisterToolName_keys_nodup htm name) m]
    rw [alookup_unregisterToolName htm name m]
    by_cases hm : m = name
    · subst hm
      by_cases hr : m ∈ rest
      · simp [hr, dropComponentInfos_idem]
      · simp [hr]
    · by_cases hr : m ∈ rest
      · simp [hr, hm]
      · simp [hr, hm]

theorem unregFold_keys_nodup {componentId : String} :
    ∀ (names : List String) {tm : List (String × List ToolInfo)},
      (tm.map Prod.fst).Nodup →
      (((names.foldl (unregisterToolName componentId) tm)).map Prod.fst).Nodup := by
  intro names
  induction names with
  | nil => intro tm h; simpa using h
  | cons name rest ih =>
    intro tm h
    simp only [List.foldl_cons]
    exact ih (unregisterToolName_keys_nodup h name)

theorem unregisterComponent_of_none {componentId : String} {reg : ComponentRegistry}
    (h : alookup componentId reg.componentMap = none) :
    unregisterComponent componentId reg = reg := by
  unfold unregisterComponent
  rw [h]

theorem unregisterComponent_of_some {componentId : String} {reg : ComponentRegistry}
    {names : List String} (h : alookup componentId reg.componentMap = some names) :
    unregisterComponent componentId reg =
      { toolMap := names.foldl (unregisterToolName componentId) reg.toolMap
        componentMap := aremove componentId reg.componentMap } := by
  unfold unregisterComponent
  rw [h]

theorem newToolInfosFor_nil_of_not_mem {componentId n : String}
    {tools : List ToolMetadata} (h : n ∉ tools.map (·.normalizedName)) :
    newToolInfosFor componentId n tools = [] := by
  unfold newToolInfosFor
  have : tools.filter (fun t => t.normalizedName == n) = [] := by
    rw [List.filter_eq_nil_iff]
    intro t ht
    simp only [beq_iff_eq]
    intro he
    exact h (by simp; exact ⟨t, ht, he⟩)
  rw [this]
  rfl

theorem newToolInfosFor_ne_nil_of_mem {componentId n : String}
    {tools : List ToolMetadata} (h : n ∈ tools.map (·.normalizedName)) :
    (newToolInfosFor componentId n tools).isEmpty = false := by
  obtain ⟨t, ht, hn⟩ := List.mem_map.mp h
  unfold newToolInfosFor
  have : t ∈ tools.filter (fun t => t.normalizedName == n) :=
    List.mem_filter.mpr ⟨ht, by simp [hn]⟩
  cases hf : tools.filter (fun t => t.normalizedName == n) with
  | nil => rw [hf] at this; simp at this
  | cons a rest => simp

theorem newToolInfosFor_all_cid {componentId n : String} {tools : List ToolMetadata} :
    ∀ info ∈ newToolInfosFor componentId n tools, info.componentId = componentId := by
  intro info hinfo
  obtain ⟨t, _, rfl⟩ := List.mem_map.mp hinfo
  rfl

theorem filter_newToolInfosFor_nil (componentId n : String)
    (tools : List ToolMetadata) :
    (newToolInfosFor componentId n tools).filter
      (fun i => i.componentId ≠ componentId) = [] := by
  rw [List.filter_eq_nil_iff]
  intro info hinfo
  simp [newToolInfosFor_all_cid info hinfo]

/-- Under well-formedness, a component absent from the reverse index
contributes no `ToolInfo` anywhere in the tool map. -/
theorem toolMap_id_free_of_cm_none {id : String} {reg : ComponentRegistry}
    (hwf : RegWF reg) (h : alookup id reg.componentMap = none) :
    ∀ n infos, alookup n reg.toolMap = some infos →
      ∀ info ∈ infos, info.componentId ≠ id := by
  intro n infos hlk info hmem heq
  obtain ⟨names, hcm, _⟩ := ((hwf.2.2 n infos hlk).2 info hmem)
  rw [heq] at hcm
  rw [h] at hcm
  cases hcm

/-- After `unregister_component(id)`, no `ToolInfo` of `id` remains in
the tool map. -/
theorem unregisterComponent_id_free {id : String} {reg : ComponentRegistry}
    (hwf : RegWF reg) :
    ∀ n infos, alookup n (unregisterComponent id reg).toolMap = some infos →
      ∀ info ∈ infos, info.componentId ≠ id := by
  cases h : alookup id reg.componentMap with
  | none =>
    rw [unregisterComponent_of_none h]
    exact toolMap_id_free_of_cm_none hwf h
  | some names0 =>
    rw [unregisterComponent_of_some h]
    intro n infos hlk info hmem heq
    simp only at hlk
    rw [alookup_unregFold names0 reg.toolMap hwf.2.1 n] at hlk
    by_cases hn : n ∈ names0
    · rw [if_pos hn] at hlk
      exact dropComponentInfos_free hlk info hmem heq
    · rw [if_neg hn] at hlk
      obtain ⟨names', hcm, hmem'⟩ := ((hwf.2.2 n infos hlk).2 info hmem)
      rw [heq, h] at hcm
      injection hcm with hcm
      subst hcm
      exact hn hmem'

theorem unregisterComponent_tm_nodup {id : String} {reg : ComponentRegistry}
    (hwf : RegWF reg) :
    ((unregisterComponent id reg).toolMap.map Prod.fst).Nodup := by
  cases h : alookup id reg.componentMap with
  | none =>
    rw [unregisterComponent_of_none h]
    exact hwf.2.1
  | some names0 =>
    rw [unregisterComponent_of_some h]
    exact unregFold_keys_nodup names0 hwf.2.1

theorem unregisterComponent_cm_none {id : String} {reg : ComponentRegistry}
    (hwf : RegWF reg) :
    alookup id (unregisterComponent id reg).componentMap = none := by
  cases h : alookup id reg.componentMap with
  | none =>
    rw [unregisterComponent_of_none h]
    exact h
  | some names0 =>
    rw [unregisterComponent_of_some h]
    exact alookup_aremove_self_of_nodup hwf.1

/-! ## C2: load rollback on artifact-commit failure -/

/-- C2 (amended): when compile and registration succeed but the artifact
copy into the plugin dir fails, `load_component` returns an IO error,
leaves the component map and policy registry untouched, and removes the
new registration so that `id` ends up unregistered (no
reverse-index entry and no `ToolInfo` of `id` in the tool map); when
`id` was not previously registered this restores the registry to its
pre-load state, but when it was replacing an existing registration the
previous tools are not restored. -/
theorem claim_C2 (st : LMState) (id : String) (tools : List ToolMetadata)
    (pol : PolicyAttachOutcome) (hwf : RegWF st.registry) :
    (loadComponent st (some id) true tools false pol).2 = .error .copyFailed ∧
    (loadComponent st (some id) true tools false pol).1.components = st.components ∧
    (loadComponent st (some id) true tools false pol).1.policies = st.policies ∧
    alookup id
      (loadComponent st (some id) true tools false pol).1.registry.componentMap =
      none ∧
    (∀ n infos,
      alookup n (loadComponent st (some id) true tools false pol).1.registry.toolMap =
        some infos → ∀ info ∈ infos, info.componentId ≠ id) ∧
    (alookup id st.registry.componentMap = none →
      (∀ n,
        alookup n (loadComponent st (some id) true tools false pol).1.registry.toolMap =
          alookup n st.registry.toolMap) ∧
      (loadComponent st (some id) true tools false pol).1.registry.componentMap =
        st.registry.componentMap) := by
  have hL : loadComponent st (some id) true tools false pol =
      ({ st with registry :=
          unregisterComponent id (registerTools id tools
            (unregisterComponent id st.registry)) }, .error .copyFailed) := rfl
  rw [hL]
  have hmid_cm_none : alookup id
      (unregisterComponent id st.registry).componentMap = none :=
    unregisterComponent_cm_none hwf
  have hmid_tm_nodup :
      ((unregisterComponent id st.registry).toolMap.map Prod.fst).Nodup :=
    unregisterComponent_tm_nodup hwf
  have hmid_free := @unregisterComponent_id_free id _ hwf
  have hreg1_cm : (registerTools id tools
      (unregisterComponent id st.registry)).componentMap =
      ainsert id (tools.map (·.normalizedName))
        (unregisterComponent id st.registry).componentMap := rfl
  have hreg1_cm_lk : alookup id (registerTools id tools
      (unregisterComponent id st.registry)).componentMap =
      some (tools.map (·.normalizedName)) := by
    rw [hreg1_cm]
    exact alookup_ainsert_self _ _ _
  have hafter := unregisterComponent_of_some hreg1_cm_lk
  have hreg1_tm_nodup : ((registerTools id tools
      (unregisterComponent id st.registry)).toolMap.map Prod.fst).Nodup :=
    registerFold_keys_nodup hmid_tm_nodup
  have hafter_cm : (unregisterComponent id (registerTools id tools
      (unregisterComponent id st.registry))).componentMap =
      (unregisterComponent id st.registry).componentMap := by
    rw [hafter]
    simp only [hreg1_cm]
    exact aremove_ainsert_of_none hmid_cm_none _
  refine ⟨rfl, rfl, rfl, ?_, ?_, ?_⟩
  · simp only [hafter_cm]
    exact hmid_cm_none
  · intro n infos hlk info hmem heq
    rw [hafter] at hlk
    simp only at hlk
    rw [alookup_unregFold _ _ hreg1_tm_nodup n] at hlk
    by_cases hn : n ∈ tools.map (·.normalizedName)
    · rw [if_pos hn] at hlk
      exact dropComponentInfos_free hlk info hmem heq
    · rw [if_neg hn] at hlk
      rw [show (registerTools id tools
          (unregisterComponent id st.registry)).toolMap = tools.foldl (fun acc t =>
            pushToolEntry t.normalizedName ⟨id, t.identifier, t.schema⟩ acc)
          (unregisterComponent id st.registry).toolMap from rfl] at hlk
      have hr1 := alookup_registerFold id tools
        (unregisterComponent id st.registry).toolMap n
      rw [newToolInfosFor_nil_of_not_mem hn] at hr1
      simp only [List.isEmpty_nil, if_true, List.append_nil] at hr1
      have hr1' : alookup n (tools.foldl (fun acc t =>
          pushToolEntry t.normalizedName ⟨id, t.identifier, t.schema⟩ acc)
          (unregisterComponent id st.registry).toolMap) =
          alookup n (unregisterComponent id st.registry).toolMap := by
        rw [hr1]
        cases alookup n (unregisterComponent id st.registry).toolMap <;> rfl
      rw [hr1'] at hlk
      exact hmid_free n infos hlk info hmem heq
  · intro hfresh
    have hmid : unregisterComponent id st.registry = st.registry :=
      unregisterComponent_of_none hfresh
    constructor
    · intro n
      rw [hafter]
      simp only
      rw [alookup_unregFold _ _ hreg1_tm_nodup n]
      rw [hmid]
      rw [show (registerTools id tools st.registry).toolMap = tools.foldl (fun acc t =>
            pushToolEntry t.normalizedName ⟨id, t.identifier, t.schema⟩ acc)
          st.registry.toolMap from rfl]
      have hr2 := alookup_registerFold id tools st.registry.toolMap n
      by_cases hn : n ∈ tools.map (·.normalizedName)
      · rw [if_pos hn, hr2]
        cases hm : alookup n st.registry.toolMap with
        | some l =>
          have hlfree : ∀ info ∈ l, info.componentId ≠ id :=
            toolMap_id_free_of_cm_none hwf hfresh n l hm
          have hlne : l ≠ [] := (hwf.2.2 n l hm).1
          show dropComponentInfos id (some (l ++ newToolInfosFor id n tools)) = some l
          simp only [dropComponentInfos, List.filter_append,
            filter_newToolInfosFor_nil, List.append_nil]
          rw [List.filter_eq_self.mpr (fun info hinfo => by
            simpa using hlfree info hinfo)]
          rw [if_neg (by simpa [List.isEmpty_iff] using hlne)]
        | none =>
          show dropComponentInfos id
            (if (newToolInfosFor id n tools).isEmpty then none
             else some (newToolInfosFor id n tools)) = none
          rw [if_neg (by simp [newToolInfosFor_ne_nil_of_mem hn])]
          simp only [dropComponentInfos, filter_newToolInfosFor_nil,
            List.isEmpty_nil, if_true]
      · rw [if_neg hn, hr2]
        simp only [newToolInfosFor_nil_of_not_mem hn, List.isEmpty_nil, if_true,
          List.append_nil]
        cases alookup n st.registry.toolMap <;> rfl
    · rw [hafter_cm, hmid]

/-- Witness for C2 (amended) at a fresh load into the empty registry
with a failing artifact copy. -/
theorem claim_C2_witness :
    RegWF ComponentRegistry.empty ∧
    (loadComponent ⟨[], .empty, []⟩ (some "c") true
      [⟨⟨none, "t"⟩, .null, "t"⟩] false .noSidecar).2 = .error .copyFailed ∧
    (∀ n, alookup n (loadComponent ⟨[], .empty, []⟩ (some "c") true
        [⟨⟨none, "t"⟩, .null, "t"⟩] false .noSidecar).1.registry.toolMap =
      alookup n ComponentRegistry.empty.toolMap) := by
  have hwf : RegWF ComponentRegistry.empty := by
    refine ⟨by simp [ComponentRegistry.empty], by simp [ComponentRegistry.empty], ?_⟩
    intro n infos h
    simp [ComponentRegistry.empty, alookup] at h
  have h := claim_C2 ⟨[], .empty, []⟩ "c" [⟨⟨none, "t"⟩, .null, "t"⟩] .noSidecar hwf
  exact ⟨hwf, h.1, (h.2.2.2.2.2 rfl).1⟩

/-- C2 counterexample: component `c` is already loaded with tool `t`;
reloading it with a new tool list and a failing artifact copy does not
restore the registry to its pre-load state — the previous registration
of `t` is gone. -/
theorem claim_C2_counterexample :
    (loadComponent
        ⟨["c"], registerTools "c" [⟨⟨none, "t"⟩, .null, "t"⟩] .empty, []⟩
        (some "c") true [⟨⟨none, "t2"⟩, .null, "t2"⟩] false .noSidecar).2 =
      .error .copyFailed ∧
    ¬ (∀ n, alookup n (loadComponent
        ⟨["c"], registerTools "c" [⟨⟨none, "t"⟩, .null, "t"⟩] .empty, []⟩
        (some "c") true [⟨⟨none, "t2"⟩, .null, "t2"⟩] false .noSidecar).1.registry.toolMap =
      alookup n (registerTools "c" [⟨⟨none, "t"⟩, .null, "t"⟩]
        ComponentRegistry.empty).toolMap) := by
  refine ⟨rfl, fun h => ?_⟩
  have ht := h "t"
  have h1 : alookup "t" (loadComponent
      ⟨["c"], registerTools "c" [⟨⟨none, "t"⟩, .null, "t"⟩] .empty, []⟩
      (some "c") true [⟨⟨none, "t2"⟩, .null, "t2"⟩] false
      .noSidecar).1.registry.toolMap = none := rfl
  have h2 : alookup "t" (registerTools "c" [⟨⟨none, "t"⟩, .null, "t"⟩]
      ComponentRegistry.empty).toolMap =
      some [⟨"c", ⟨none, "t"⟩, .null⟩] := rfl
  rw [h1, h2] at ht
  cases ht

end Wassette
